import Mathlib

/-!
Verification of the media-generation pipeline of `src/server.js`
(AI-Gen-Video-Generator).

The development shallowly embeds the `POST /generate-podcast` handler and its
helper functions as pure Lean functions.  External effects (the Gemini call,
the text-to-speech backend, file downloads, ffprobe and ffmpeg invocations)
are abstracted into an `Env` oracle that fixes each call's outcome, and the
handler is modelled as a function from a request and such an oracle to the
ordered list of observable events it performs: backend calls, file creations,
cleanup registrations (`cleanupPaths.push`), deletions, HTTP responses, and
the deferred-cleanup timer.  Every claim is then a statement about these
traces or about the pure helper functions (`validateChirpVoice`, speaker
routing, `podcastLength` normalisation, the duration check).
-/

set_option maxHeartbeats 1000000

namespace AIVid

/-! ## JavaScript string primitives used by the source -/

/-- `pat` is a prefix of `s` (character lists; used to model the string
prefix tests implicit in JS substring search). -/
def strStarts : List Char → List Char → Bool
  | [], _ => true
  | _ :: _, [] => false
  | p :: ps, c :: cs => p == c && strStarts ps cs

/-- Model of `String.prototype.includes`: `pat` occurs contiguously in `hay`. -/
def jsIncludes : List Char → List Char → Bool
  | [], pat => strStarts pat []
  | c :: t, pat => strStarts pat (c :: t) || jsIncludes t pat

/-- Model of `String.prototype.toLowerCase` restricted to ASCII input
(`Char.toLower` lower-cases exactly the ASCII letters, which is what the
source relies on for speaker labels and voice names). -/
def jsToLower (s : List Char) : List Char := s.map Char.toLower

/-- JS truthiness of an optional string field: absent and `""` are falsy. -/
def truthyStr : Option String → Bool
  | none => false
  | some s => !(s == "")

/-! ## Voice validation and speaker routing (server.js lines 277-279, 359-360) -/

def chirpTok : List Char := ['c', 'h', 'i', 'r', 'p']

def womanTok : List Char := ['w', 'o', 'm', 'a', 'n']

/-- `validateChirpVoice` (line 277): the value must be a string and contain
the literal substring `chirp`. A missing field models the non-string case. -/
def validateChirpVoice : Option String → Bool
  | none => false
  | some s => jsIncludes s.data chirpTok

inductive Speaker
  | man
  | woman
deriving DecidableEq

/-- Speaker routing (lines 359-360):
`line.speaker.toLowerCase().includes('woman')` picks the woman's voice and
background video, anything else picks the man's. -/
def routeSpeaker (s : String) : Speaker :=
  if jsIncludes (jsToLower s.data) womanTok then .woman else .man

/-! ## JavaScript numbers and `Number.parseFloat` (lines 316-317) -/

/-- The JS number values the pipeline distinguishes: `NaN`, the two
infinities, and finite values (modelled as rationals; the source only
compares, defaults and prints them, so exact rationals are faithful). -/
inductive JsNum
  | nan
  | inf
  | ninf
  | num (q : ℚ)
deriving DecidableEq

def isDigitCh (c : Char) : Bool := '0' ≤ c && c ≤ '9'

/-- Split a character list into its maximal leading run of decimal digits
and the rest. -/
def takeDigits : List Char → List Char × List Char
  | [] => ([], [])
  | c :: r =>
    if isDigitCh c then
      let p := takeDigits r
      (c :: p.1, p.2)
    else ([], c :: r)

def digitsToNat (l : List Char) : Nat :=
  l.foldl (fun a c => 10 * a + (c.toNat - 48)) 0

def isJsWs (c : Char) : Bool := c == ' ' || c == '\t' || c == '\n' || c == '\r'

def parseSign : List Char → Int × List Char
  | '-' :: r => (-1, r)
  | '+' :: r => (1, r)
  | r => (1, r)

def infinityChars : List Char := ['I', 'n', 'f', 'i', 'n', 'i', 't', 'y']

/-- Exponent part of a JS float literal: `e`/`E`, optional sign, digits;
an exponent marker not followed by digits is ignored (value 0), as in JS. -/
def parseExpo : List Char → Int
  | [] => 0
  | c :: r =>
    if c == 'e' || c == 'E' then
      let sr := parseSign r
      let ed := takeDigits sr.2
      if ed.1.isEmpty then 0 else sr.1 * (digitsToNat ed.1 : Int)
    else 0

/-- Model of `Number.parseFloat`: skip leading whitespace, optional sign,
`Infinity`, or a decimal literal (`digits[.digits][exponent]`), reading the
longest valid numeric prefix; `NaN` when no digits are found. -/
def parseFloatJs (s : List Char) : JsNum :=
  let s1 := s.dropWhile isJsWs
  let sg := parseSign s1
  if strStarts infinityChars sg.2 then
    if sg.1 = -1 then .ninf else .inf
  else
    let ip := takeDigits sg.2
    let fp :=
      match ip.2 with
      | '.' :: r => takeDigits r
      | other => ([], other)
    if ip.1.isEmpty && fp.1.isEmpty then .nan
    else
      let mant : ℚ := (digitsToNat ip.1 : ℚ) + (digitsToNat fp.1 : ℚ) / ((10 : ℚ) ^ fp.1.length)
      .num ((sg.1 : ℚ) * mant * (10 : ℚ) ^ parseExpo fp.2)

/-- `Number.isFinite`. -/
def jsIsFinite : JsNum → Bool
  | .num _ => true
  | _ => false

/-- The JS comparison `x > 0` (`NaN > 0` is false, `Infinity > 0` is true). -/
def jsGtZero : JsNum → Bool
  | .num q => decide (0 < q)
  | .inf => true
  | _ => false

def jsToQ : JsNum → ℚ
  | .num q => q
  | _ => 0

/-- Lines 294, 316-317: the `podcastLength` field defaults to the string
`'5'` when absent, is parsed with `Number.parseFloat`, and the parsed value
is kept only when finite and strictly positive, else `5`. -/
def normalizedLength (pl : Option String) : ℚ :=
  let parsed := parseFloatJs (pl.getD "5").data
  if jsIsFinite parsed && jsGtZero parsed then jsToQ parsed else 5

/-! ## Topic composition (`prepareTopicParts`, lines 108-142) -/

inductive Part
  | intro (len : ℚ)
  | plainText (t : String)
  | transcriptSeg (url t : String)
  | degraded (url : String)
  | inlineData
  | original
deriving DecidableEq

/-- `prepareTopicParts`: the leading instruction segment embeds the target
length; optional plain text, transcript (or degraded note), and inline file
segments follow; if nothing was added, an invent-a-topic segment is added.
`transcript` is the oracle outcome of `extractYouTubeTranscript` (`none`
models both a fetch error and a null result; an empty string is falsy in the
`if (transcriptText)` test). -/
def prepareTopicParts (topicText youtubeUrl : Option String) (hasTopicFile : Bool)
    (transcript : Option String) (len : ℚ) : List Part :=
  let p0 : List Part := [.intro len]
  let p1 := if truthyStr topicText then p0 ++ [.plainText (topicText.getD "")] else p0
  let p2 :=
    if truthyStr youtubeUrl then
      if truthyStr transcript then
        p1 ++ [.transcriptSeg (youtubeUrl.getD "") (transcript.getD "")]
      else p1 ++ [.degraded (youtubeUrl.getD "")]
    else p1
  let p3 := if hasTopicFile then p2 ++ [.inlineData] else p2
  if p3.length = 1 then p3 ++ [.original] else p3

/-! ## The dialogue script and its filtering (lines 348-352) -/

/-- One element of the JSON array returned by Gemini; either field may be
missing (`none`) or an empty string, both falsy in the source's check. -/
structure ScriptEntry where
  speaker : Option String
  line : Option String
deriving DecidableEq

/-- The loop body's guard `if (!line || !line.speaker || !line.line) continue`:
an entry survives iff it is a (truthy) object with truthy speaker and line. -/
def entryValid : Option ScriptEntry → Bool
  | none => false
  | some e => truthyStr e.speaker && truthyStr e.line

def entrySpeaker : Option ScriptEntry → String
  | some e => e.speaker.getD ""
  | none => ""

/-- Indices (0-based loop indices) of the entries that survive filtering,
in document order. -/
def filteredIdx : List (Option ScriptEntry) → Nat → List Nat
  | [], _ => []
  | e :: r, i =>
    if entryValid e then i :: filteredIdx r (i + 1) else filteredIdx r (i + 1)

/-! ## Artifacts and observable events -/

/-- The filesystem artifacts a run can create.  Real names carry a UUID and
so are run-unique; identity up to role and loop index is faithful. -/
inductive Artifact
  | manVideo
  | womanVideo
  | audio (i : Nat)
  | clip (i : Nat)
  | concatManifest
  | finalOutput
  | uploadTopic
  | uploadManVideo
  | uploadWomanVideo
deriving DecidableEq

/-- Observable events of one request, in program order. `register a` is
`cleanupPaths.push(a)`; `cleanupRun l` is the synchronous start of
`cleanupFiles(l)` in the catch block (its `deleteFile` completions are
separate events, since the call is not awaited); `scheduleTimer l` is the
30-second `setTimeout` that will delete `l` on the success path. -/
inductive Event
  | respond400
  | respond500
  | respond200
  | composeTopic (parts : List Part)
  | geminiCall
  | ttsCall (i : Nat) (sp : Speaker)
  | probeCall (i : Nat)
  | loopCall (i : Nat) (d : JsNum)
  | concatCall (clips : List Artifact)
  | create (a : Artifact)
  | register (a : Artifact)
  | deleteFile (a : Artifact)
  | cleanupRun (l : List Artifact)
  | scheduleTimer (l : List Artifact)
deriving DecidableEq

/-- The duration guard (line 366): `!duration || Number.isNaN(duration)`.
`none` is an undefined `metadata.format.duration`; `0` and `NaN` are falsy;
negative and infinite values pass. -/
def durBad : Option JsNum → Bool
  | none => true
  | some .nan => true
  | some (.num q) => decide (q = 0)
  | some _ => false

/-! ## Environment oracle and request -/

/-- Outcomes of all external calls of one run. -/
structure Env where
  transcript : Option String
  gemini : Except Unit (List (Option ScriptEntry))
  downloadMan : Bool
  downloadWoman : Bool
  synthOk : Nat → Bool
  probe : Nat → Except Unit (Option JsNum)
  loopOk : Nat → Bool
  concatOk : Bool

/-- The multipart form fields the handler reads.  File parts are modelled by
presence flags (multer has already stored them when the handler runs). -/
structure Request where
  apiKey : Option String
  topicText : Option String
  youtubeUrl : Option String
  podcastLength : Option String
  languageCode : Option String
  manVoice : Option String
  womanVoice : Option String
  manVideoOption : Option String
  womanVideoOption : Option String
  manLibraryVideo : Option String
  womanLibraryVideo : Option String
  topicFile : Bool
  manVideoFile : Bool
  womanVideoFile : Bool

/-! ## The pipeline pieces -/

/-- `resolveVideoSource` (lines 254-275) for one speaker, as events plus an
outcome: `some usedUpload` on success, `none` on failure.  For `custom`
without an upload it throws before touching the filesystem; otherwise
`downloadFile` opens the write stream first, so the target file exists even
when the download then fails. -/
def resolveSrc (opt : String) (uploadPresent dlOk : Bool) (art : Artifact) :
    List Event × Option Bool :=
  if opt = "custom" then
    if uploadPresent then ([], some true) else ([], none)
  else if dlOk then ([.create art], some false)
  else ([.create art], none)

/-- Result of the rendering loop (lines 348-373): its events, the final
`cleanupPaths`, the accumulated `clipPaths`, and whether it ran to
completion. -/
structure LoopOut where
  ev : List Event
  reg : List Artifact
  clips : List Artifact
  ok : Bool
deriving DecidableEq

/-- The rendering loop.  Malformed entries are skipped; for a surviving
entry at index `i` the audio and clip paths are pushed onto `cleanupPaths`
first (line 357), then speech is synthesized, the duration probed and
checked, and the clip assembled; any failure aborts the whole loop. -/
def renderLoop (env : Env) : List (Option ScriptEntry) → Nat → List Artifact → List Artifact → LoopOut
  | [], _, reg, cls => ⟨[], reg, cls, true⟩
  | e :: rest, i, reg, cls =>
    if entryValid e then
      let sp := routeSpeaker (entrySpeaker e)
      let reg1 := reg ++ [.audio i, .clip i]
      if env.synthOk i then
        match env.probe i with
        | .error _ =>
          ⟨[.register (.audio i), .register (.clip i), .ttsCall i sp,
            .create (.audio i), .probeCall i], reg1, cls, false⟩
        | .ok d =>
          if durBad d then
            ⟨[.register (.audio i), .register (.clip i), .ttsCall i sp,
              .create (.audio i), .probeCall i], reg1, cls, false⟩
          else
            let dv := d.getD .nan
            if env.loopOk i then
              let r := renderLoop env rest (i + 1) reg1 (cls ++ [.clip i])
              ⟨[.register (.audio i), .register (.clip i), .ttsCall i sp,
                .create (.audio i), .probeCall i, .loopCall i dv,
                .create (.clip i)] ++ r.ev, r.reg, r.clips, r.ok⟩
            else
              ⟨[.register (.audio i), .register (.clip i), .ttsCall i sp,
                .create (.audio i), .probeCall i, .loopCall i dv], reg1, cls, false⟩
      else
        ⟨[.register (.audio i), .register (.clip i), .ttsCall i sp], reg1, cls, false⟩
    else renderLoop env rest (i + 1) reg cls

/-- The catch block (lines 392-396): `cleanupFiles(cleanupPaths)` is started
but not awaited, then the 500 response is sent; the individual unlink
completions land after the response. -/
def katch (t : List Event) (reg : List Artifact) : List Event :=
  t ++ [.cleanupRun reg, .respond500] ++ reg.map .deleteFile

/-- `tempUploads` (line 387): the upload paths present on the request, in
source order. -/
def uploadArts (req : Request) : List Artifact :=
  (if req.topicFile then [Artifact.uploadTopic] else [])
    ++ (if req.manVideoFile then [Artifact.uploadManVideo] else [])
    ++ (if req.womanVideoFile then [Artifact.uploadWomanVideo] else [])

/-- The `POST /generate-podcast` handler (lines 287-397) as an event trace.
Validation; topic composition; Gemini; source resolution for man then woman
(registration of downloaded paths happens after both, lines 341-346); the
rendering loop; the no-clips check; concatenation (the manifest is written,
ffmpeg concat runs, and only on success the output exists and the manifest
is unlinked inline); the success response, upload registration and the
deferred cleanup timer — with every failure routed through the catch
block. -/
def runHandler (req : Request) (env : Env) : List Event :=
  if !truthyStr req.apiKey then [.respond400]
  else if !(validateChirpVoice req.manVoice && validateChirpVoice req.womanVoice) then
    [.respond400]
  else
    let nl := normalizedLength req.podcastLength
    let parts := prepareTopicParts req.topicText req.youtubeUrl req.topicFile env.transcript nl
    let t0 : List Event := [.composeTopic parts, .geminiCall]
    match env.gemini with
    | .error _ => katch t0 []
    | .ok script =>
      let rm := resolveSrc (req.manVideoOption.getD "default") req.manVideoFile env.downloadMan .manVideo
      match rm.2 with
      | none => katch (t0 ++ rm.1) []
      | some manUp =>
        let rw := resolveSrc (req.womanVideoOption.getD "default") req.womanVideoFile env.downloadWoman .womanVideo
        match rw.2 with
        | none => katch (t0 ++ rm.1 ++ rw.1) []
        | some womanUp =>
          let regVids := (if manUp then ([] : List Artifact) else [.manVideo])
            ++ (if womanUp then ([] : List Artifact) else [.womanVideo])
          let t1 := t0 ++ rm.1 ++ rw.1 ++ regVids.map .register
          let lo := renderLoop env script 0 regVids []
          if !lo.ok then katch (t1 ++ lo.ev) lo.reg
          else if lo.clips.isEmpty then katch (t1 ++ lo.ev) lo.reg
          else
            let t2 := t1 ++ lo.ev ++ [.create .concatManifest, .concatCall lo.clips]
            if env.concatOk then
              let ups := uploadArts req
              t2 ++ [.create .finalOutput, .deleteFile .concatManifest, .respond200]
                ++ ups.map .register ++ [.scheduleTimer (lo.reg ++ ups)]
            else katch t2 lo.reg

/-! ## Spec-side notions -/

/-- Spec-side: "a positive finite number" (claim C7's requirement on the
probed duration). -/
def specPosFinite : JsNum → Bool
  | .num q => decide (0 < q)
  | _ => false

/-- Spec-side effective podcast length, following claim C8's words: the
parsed value of the field when that value is a finite positive number, and
`5` otherwise (missing field, non-numeric string, or non-positive value). -/
def specEffectiveLength : Option String → ℚ
  | none => 5
  | some s =>
    match parseFloatJs s.data with
    | .num q => if 0 < q then q else 5
    | _ => 5

/-- `a` occurs before every occurrence of `b` in `t`. -/
def PrecededBy (t : List Event) (b a : Event) : Prop :=
  ∀ l1 l2, t = l1 ++ b :: l2 → a ∈ l1

/-- Intermediate artifacts: the pipeline-owned temporaries that are supposed
to be on the immediate-cleanup path. -/
def isInterm : Artifact → Bool
  | .manVideo => true
  | .womanVideo => true
  | .audio _ => true
  | .clip _ => true
  | _ => false

def isUpload : Artifact → Bool
  | .uploadTopic => true
  | .uploadManVideo => true
  | .uploadWomanVideo => true
  | _ => false

/-- Pipeline phase of an event for the ordering claim C4: composition (10),
script generation (20), source resolution (30), rendering (40),
concatenation (50); events outside the five orchestrator steps have no
phase. -/
def phase : Event → Option Nat
  | .composeTopic _ => some 10
  | .geminiCall => some 20
  | .create .manVideo => some 30
  | .create .womanVideo => some 30
  | .register .manVideo => some 30
  | .register .womanVideo => some 30
  | .ttsCall _ _ => some 40
  | .probeCall _ => some 40
  | .loopCall _ _ => some 40
  | .create (.audio _) => some 40
  | .create (.clip _) => some 40
  | .register (.audio _) => some 40
  | .register (.clip _) => some 40
  | .create .concatManifest => some 50
  | .concatCall _ => some 50
  | .create .finalOutput => some 50
  | .deleteFile .concatManifest => some 50
  | _ => none

end AIVid

namespace AIVid

/-! ## Generic lemmas about event precedence -/

theorem prec_of_not_mem {t : List Event} {b a : Event} (h : b ∉ t) :
    PrecededBy t b a := by
  intro l1 l2 he
  exact absurd (he ▸ List.mem_append_right l1 (List.mem_cons_self b l2)) h

theorem prec_head {t : List Event} {b a : Event} (hne : b ≠ a) :
    PrecededBy (a :: t) b a := by
  intro l1 l2 he
  cases l1 with
  | nil => simp only [List.nil_append, List.cons.injEq] at he; exact absurd he.1.symm hne
  | cons y l1' =>
    simp only [List.cons_append, List.cons.injEq] at he
    exact he.1 ▸ List.mem_cons_self a l1'

theorem prec_cons {t : List Event} {b a x : Event} (hx : b ≠ x)
    (h : PrecededBy t b a) : PrecededBy (x :: t) b a := by
  intro l1 l2 he
  cases l1 with
  | nil => simp only [List.nil_append, List.cons.injEq] at he; exact absurd he.1.symm hx
  | cons y l1' =>
    simp only [List.cons_append, List.cons.injEq] at he
    exact List.mem_cons_of_mem y (h l1' l2 he.2)

theorem prec_append_not_mem {t1 t2 : List Event} {b a : Event}
    (h1 : PrecededBy t1 b a) (h2 : b ∉ t2) : PrecededBy (t1 ++ t2) b a := by
  intro l1 l2 he
  rcases List.append_eq_append_iff.mp he with ⟨w, _, hw2⟩ | ⟨w, hw1, hw2⟩
  · exact absurd (hw2 ▸ List.mem_append_right w (List.mem_cons_self b l2)) h2
  · cases w with
    | nil => exact absurd (hw2 ▸ List.mem_cons_self b l2) (by simpa using h2)
    | cons d w' =>
      simp only [List.cons_append, List.cons.injEq] at hw2
      exact h1 l1 w' (by rw [hw1, hw2.1])

theorem prec_append_left {t1 t2 : List Event} {b a : Event}
    (hb : b ∉ t1) (h : PrecededBy t2 b a) : PrecededBy (t1 ++ t2) b a := by
  intro l1 l2 he
  rcases List.append_eq_append_iff.mp he with ⟨w, hw1, hw2⟩ | ⟨w, hw1, hw2⟩
  · exact hw1 ▸ List.mem_append_right t1 (h w l2 hw2)
  · cases w with
    | nil =>
      simp only [List.nil_append] at hw2
      have := h [] l2 hw2.symm
      simp at this
    | cons d w' =>
      simp only [List.cons_append, List.cons.injEq] at hw2
      exact absurd (hw1 ▸ List.mem_append_right l1 (hw2.1 ▸ List.mem_cons_self d w')) hb

theorem prec_of_parts {t1 t2 : List Event} {b a : Event}
    (ha : a ∈ t1) (hb : b ∉ t1) : PrecededBy (t1 ++ t2) b a := by
  intro l1 l2 he
  rcases List.append_eq_append_iff.mp he with ⟨w, hw1, _⟩ | ⟨w, hw1, hw2⟩
  · exact hw1 ▸ List.mem_append_left w ha
  · cases w with
    | nil => simpa [hw1] using ha
    | cons d w' =>
      simp only [List.cons_append, List.cons.injEq] at hw2
      exact absurd (hw1 ▸ List.mem_append_right l1 (hw2.1 ▸ List.mem_cons_self d w')) hb

/-! ## String-search lemmas -/

theorem strStarts_iff {p s : List Char} :
    strStarts p s = true ↔ ∃ r, s = p ++ r := by
  induction p generalizing s with
  | nil => simp [strStarts]
  | cons pc p' ih =>
    cases s with
    | nil => simp [strStarts]
    | cons c t =>
      simp only [strStarts, Bool.and_eq_true, beq_iff_eq, ih, List.cons_append,
        List.cons.injEq]
      constructor
      · rintro ⟨rfl, r, rfl⟩; exact ⟨r, rfl, rfl⟩
      · rintro ⟨r, rfl, rfl⟩; exact ⟨rfl, r, rfl⟩

theorem jsIncludes_iff {s p : List Char} :
    jsIncludes s p = true ↔ ∃ u v, s = u ++ p ++ v := by
  induction s with
  | nil =>
    simp only [jsIncludes, strStarts_iff]
    constructor
    · rintro ⟨r, hr⟩
      rcases List.append_eq_nil.mp hr.symm with ⟨rfl, rfl⟩
      exact ⟨[], [], rfl⟩
    · rintro ⟨u, v, huv⟩
      rcases List.append_eq_nil.mp ((List.append_assoc u p v ▸ huv).symm) with ⟨rfl, h2⟩
      rcases List.append_eq_nil.mp h2 with ⟨rfl, rfl⟩
      exact ⟨[], rfl⟩
  | cons c t ih =>
    simp only [jsIncludes, Bool.or_eq_true, strStarts_iff, ih]
    constructor
    · rintro (⟨r, hr⟩ | ⟨u, v, huv⟩)
      · exact ⟨[], r, by simpa using hr⟩
      · exact ⟨c :: u, v, by simp [huv]⟩
    · rintro ⟨u, v, huv⟩
      cases u with
      | nil => exact Or.inl ⟨v, by simpa using huv⟩
      | cons d u' =>
        simp only [List.cons_append, List.cons.injEq] at huv
        exact Or.inr ⟨u', v, huv.2⟩

/-! ## The default `podcastLength` parses to 5 -/

theorem parseFloat_five : parseFloatJs "5".data = .num 5 := by
  have h : parseFloatJs "5".data =
      .num (((1 : Int) : ℚ) * ((digitsToNat ['5'] : ℚ) + (digitsToNat [] : ℚ) /
        (10 : ℚ) ^ ([] : List Char).length) * (10 : ℚ) ^ (0 : Int)) := rfl
  have h5 : digitsToNat ['5'] = 5 := rfl
  have h0 : digitsToNat ([] : List Char) = 0 := rfl
  rw [h, h5, h0]
  norm_num

theorem normalizedLength_eq_spec (pl : Option String) :
    normalizedLength pl = specEffectiveLength pl := by
  cases pl with
  | none =>
    show normalizedLength none = 5
    unfold normalizedLength
    rw [show (none : Option String).getD "5" = "5" from rfl, parseFloat_five]
    simp only [jsIsFinite, jsGtZero, jsToQ]
    norm_num
  | some s =>
    unfold normalizedLength specEffectiveLength
    rcases hp : parseFloatJs (some s |>.getD "5").data with _ | _ | _ | q <;>
      simp only [Option.getD_some] at hp ⊢ <;> rw [hp] <;>
      simp [jsIsFinite, jsGtZero, jsToQ]

end AIVid

namespace AIVid

/-! ## Rendering-loop lemmas -/

/-- The loop index carried by an event that the rendering loop can emit;
`none` for every event the loop never emits. -/
def loopEvIdx : Event → Option Nat
  | .ttsCall i _ => some i
  | .probeCall i => some i
  | .loopCall i _ => some i
  | .create (.audio i) => some i
  | .create (.clip i) => some i
  | .register (.audio i) => some i
  | .register (.clip i) => some i
  | _ => none

theorem renderLoop_ev_shape (env : Env) (sc : List (Option ScriptEntry)) (i : Nat)
    (reg cls : List Artifact) :
    ∀ e ∈ (renderLoop env sc i reg cls).ev, ∃ j, i ≤ j ∧ loopEvIdx e = some j := by
  induction sc generalizing i reg cls with
  | nil => simp [renderLoop]
  | cons hd rest ih =>
    intro e he
    by_cases hv : entryValid hd
    · simp only [renderLoop, hv, if_true] at he
      by_cases hs : env.synthOk i
      · simp only [hs, if_true] at he
        rcases hp : env.probe i with u | d
        · rw [hp] at he
          simp only [List.mem_cons, List.not_mem_nil, or_false] at he
          rcases he with rfl | rfl | rfl | rfl | rfl <;> exact ⟨i, le_refl i, rfl⟩
        · rw [hp] at he
          by_cases hdb : durBad d
          · simp only [hdb, if_true] at he
            simp only [List.mem_cons, List.not_mem_nil, or_false] at he
            rcases he with rfl | rfl | rfl | rfl | rfl <;> exact ⟨i, le_refl i, rfl⟩
          · simp only [hdb, if_false, Bool.false_eq_true] at he
            by_cases hl : env.loopOk i
            · simp only [hl, if_true, List.cons_append, List.nil_append,
                List.mem_cons, List.mem_append] at he
              rcases he with rfl | rfl | rfl | rfl | rfl | rfl | rfl | he
              · exact ⟨i, le_refl i, rfl⟩
              · exact ⟨i, le_refl i, rfl⟩
              · exact ⟨i, le_refl i, rfl⟩
              · exact ⟨i, le_refl i, rfl⟩
              · exact ⟨i, le_refl i, rfl⟩
              · exact ⟨i, le_refl i, rfl⟩
              · exact ⟨i, le_refl i, rfl⟩
              · rcases ih (i + 1) _ _ e he with ⟨j, hij, hj⟩
                exact ⟨j, le_trans (Nat.le_succ i) hij, hj⟩
            · simp only [hl, if_false, Bool.false_eq_true, List.mem_cons,
                List.not_mem_nil, or_false] at he
              rcases he with rfl | rfl | rfl | rfl | rfl | rfl <;> exact ⟨i, le_refl i, rfl⟩
      · simp only [hs, if_false, Bool.false_eq_true, List.mem_cons, List.not_mem_nil,
          or_false] at he
        rcases he with rfl | rfl | rfl <;> exact ⟨i, le_refl i, rfl⟩
    · simp only [renderLoop, hv, if_false, Bool.false_eq_true] at he
      rcases ih (i + 1) _ _ e he with ⟨j, hij, hj⟩
      exact ⟨j, le_trans (Nat.le_succ i) hij, hj⟩

end AIVid

namespace AIVid

theorem renderLoop_reg_shape (env : Env) (sc : List (Option ScriptEntry)) (i : Nat)
    (reg cls : List Artifact) :
    ∀ a ∈ (renderLoop env sc i reg cls).reg,
      a ∈ reg ∨ ∃ j, i ≤ j ∧ (a = .audio j ∨ a = .clip j) := by
  induction sc generalizing i reg cls with
  | nil => exact fun a ha => Or.inl (by simpa [renderLoop] using ha)
  | cons hd rest ih =>
    intro a ha
    by_cases hv : entryValid hd
    · simp only [renderLoop, hv, if_true] at ha
      by_cases hs : env.synthOk i
      · simp only [hs, if_true] at ha
        rcases hp : env.probe i with u | d
        · rw [hp] at ha
          simp only [List.mem_append, List.mem_cons, List.not_mem_nil, or_false] at ha
          rcases ha with ha | rfl | rfl
          · exact Or.inl ha
          · exact Or.inr ⟨i, le_refl i, Or.inl rfl⟩
          · exact Or.inr ⟨i, le_refl i, Or.inr rfl⟩
        · rw [hp] at ha
          by_cases hdb : durBad d
          · simp only [hdb, if_true] at ha
            simp only [List.mem_append, List.mem_cons, List.not_mem_nil, or_false] at ha
            rcases ha with ha | rfl | rfl
            · exact Or.inl ha
            · exact Or.inr ⟨i, le_refl i, Or.inl rfl⟩
            · exact Or.inr ⟨i, le_refl i, Or.inr rfl⟩
          · simp only [hdb, if_false, Bool.false_eq_true] at ha
            by_cases hl : env.loopOk i
            · simp only [hl, if_true] at ha
              rcases ih (i + 1) _ _ a ha with ha' | ⟨j, hij, hj⟩
              · simp only [List.mem_append, List.mem_cons, List.not_mem_nil, or_false] at ha'
                rcases ha' with ha' | rfl | rfl
                · exact Or.inl ha'
                · exact Or.inr ⟨i, le_refl i, Or.inl rfl⟩
                · exact Or.inr ⟨i, le_refl i, Or.inr rfl⟩
              · exact Or.inr ⟨j, le_trans (Nat.le_succ i) hij, hj⟩
            · simp only [hl, if_false, Bool.false_eq_true] at ha
              simp only [List.mem_append, List.mem_cons, List.not_mem_nil, or_false] at ha
              rcases ha with ha | rfl | rfl
              · exact Or.inl ha
              · exact Or.inr ⟨i, le_refl i, Or.inl rfl⟩
              · exact Or.inr ⟨i, le_refl i, Or.inr rfl⟩
      · simp only [hs, if_false, Bool.false_eq_true] at ha
        simp only [List.mem_append, List.mem_cons, List.not_mem_nil, or_false] at ha
        rcases ha with ha | rfl | rfl
        · exact Or.inl ha
        · exact Or.inr ⟨i, le_refl i, Or.inl rfl⟩
        · exact Or.inr ⟨i, le_refl i, Or.inr rfl⟩
    · simp only [renderLoop, hv, if_false, Bool.false_eq_true] at ha
      rcases ih (i + 1) _ _ a ha with ha' | ⟨j, hij, hj⟩
      · exact Or.inl ha'
      · exact Or.inr ⟨j, le_trans (Nat.le_succ i) hij, hj⟩

theorem renderLoop_ok_clips (env : Env) (sc : List (Option ScriptEntry)) (i : Nat)
    (reg cls : List Artifact) (hok : (renderLoop env sc i reg cls).ok = true) :
    (renderLoop env sc i reg cls).clips = cls ++ (filteredIdx sc i).map .clip := by
  induction sc generalizing i reg cls with
  | nil => simp [renderLoop, filteredIdx]
  | cons hd rest ih =>
    by_cases hv : entryValid hd
    · simp only [renderLoop, hv, if_true] at hok ⊢
      by_cases hs : env.synthOk i
      · simp only [hs, if_true] at hok ⊢
        rcases hp : env.probe i with u | d
        · simp only [hp] at hok
          simp at hok
        · simp only [hp] at hok ⊢
          by_cases hdb : durBad d
          · simp only [hdb, if_true] at hok
            simp at hok
          · simp only [hdb, if_false, Bool.false_eq_true] at hok ⊢
            by_cases hl : env.loopOk i
            · simp only [hl, if_true] at hok ⊢
              rw [ih (i + 1) _ _ hok]
              simp [filteredIdx, hv]
            · simp only [hl, if_false, Bool.false_eq_true] at hok
      · simp only [hs, if_false, Bool.false_eq_true] at hok
    · simp only [renderLoop, hv, if_false, Bool.false_eq_true] at hok ⊢
      rw [ih (i + 1) _ _ hok]
      simp [filteredIdx, hv]

theorem durBad_false_getD {d : Option JsNum} (h : durBad d = false) :
    d.getD .nan ≠ .nan ∧ d.getD .nan ≠ .num 0 := by
  rcases d with _ | v
  · simp [durBad] at h
  · rcases v with _ | _ | _ | q
    · simp [durBad] at h
    · simp [Option.getD]
    · simp [Option.getD]
    · simp only [durBad, decide_eq_false_iff_not] at h
      simp [Option.getD, h]

theorem renderLoop_loopCall_good (env : Env) (sc : List (Option ScriptEntry)) (i : Nat)
    (reg cls : List Artifact) (j : Nat) (d : JsNum)
    (h : .loopCall j d ∈ (renderLoop env sc i reg cls).ev) :
    d ≠ .nan ∧ d ≠ .num 0 := by
  induction sc generalizing i reg cls with
  | nil => simp [renderLoop] at h
  | cons hd rest ih =>
    by_cases hv : entryValid hd
    · simp only [renderLoop, hv, if_true] at h
      by_cases hs : env.synthOk i
      · simp only [hs, if_true] at h
        rcases hp : env.probe i with u | dd
        · rw [hp] at h; simp at h
        · rw [hp] at h
          by_cases hdb : durBad dd
          · simp only [hdb, if_true] at h; simp at h
          · simp only [hdb, if_false, Bool.false_eq_true] at h
            by_cases hl : env.loopOk i
            · simp only [hl, if_true, List.cons_append, List.nil_append,
                List.mem_cons, List.mem_append] at h
              rcases h with h | h | h | h | h | h | h | h
              · exact absurd h (by simp)
              · exact absurd h (by simp)
              · exact absurd h (by simp)
              · exact absurd h (by simp)
              · exact absurd h (by simp)
              · rcases Event.loopCall.inj h with ⟨rfl, rfl⟩
                exact durBad_false_getD (by simpa using hdb)
              · exact absurd h (by simp)
              · exact ih (i + 1) _ _ h
            · simp only [hl, if_false, Bool.false_eq_true, List.mem_cons,
                List.not_mem_nil, or_false] at h
              rcases h with h | h | h | h | h | h
              · exact absurd h (by simp)
              · exact absurd h (by simp)
              · exact absurd h (by simp)
              · exact absurd h (by simp)
              · exact absurd h (by simp)
              · rcases Event.loopCall.inj h with ⟨rfl, rfl⟩
                exact durBad_false_getD (by simpa using hdb)
      · simp only [hs, if_false, Bool.false_eq_true, List.mem_cons, List.not_mem_nil,
          or_false] at h
        rcases h with h | h | h <;> exact absurd h (by simp)
    · simp only [renderLoop, hv, if_false, Bool.false_eq_true] at h
      exact ih (i + 1) _ _ h

end AIVid

namespace AIVid

theorem renderLoop_reg_before_create_audio (env : Env) (sc : List (Option ScriptEntry))
    (i : Nat) (reg cls : List Artifact) (j : Nat) :
    PrecededBy (renderLoop env sc i reg cls).ev (.create (.audio j)) (.register (.audio j)) := by
  induction sc generalizing i reg cls with
  | nil => exact prec_of_not_mem (by simp [renderLoop])
  | cons hd rest ih =>
    by_cases hv : entryValid hd
    · simp only [renderLoop, hv, if_true]
      by_cases hs : env.synthOk i
      · simp only [hs, if_true]
        rcases hp : env.probe i with u | d
        · by_cases hij : j = i
          · subst hij; exact prec_head (by simp)
          · exact prec_of_not_mem (by simp [hij])
        · by_cases hdb : durBad d
          · simp only [hdb, if_true]
            by_cases hij : j = i
            · subst hij; exact prec_head (by simp)
            · exact prec_of_not_mem (by simp [hij])
          · simp only [hdb, if_false, Bool.false_eq_true]
            by_cases hl : env.loopOk i
            · simp only [hl, if_true]
              by_cases hij : j = i
              · subst hij; exact prec_head (by simp)
              · exact prec_append_left (by simp [hij]) (ih (i + 1) _ _)
            · simp only [hl, if_false, Bool.false_eq_true]
              by_cases hij : j = i
              · subst hij; exact prec_head (by simp)
              · exact prec_of_not_mem (by simp [hij])
      · simp only [hs, if_false, Bool.false_eq_true]
        by_cases hij : j = i
        · subst hij; exact prec_head (by simp)
        · exact prec_of_not_mem (by simp [hij])
    · simp only [renderLoop, hv, if_false, Bool.false_eq_true]
      exact ih (i + 1) _ _

theorem renderLoop_reg_before_create_clip (env : Env) (sc : List (Option ScriptEntry))
    (i : Nat) (reg cls : List Artifact) (j : Nat) :
    PrecededBy (renderLoop env sc i reg cls).ev (.create (.clip j)) (.register (.clip j)) := by
  induction sc generalizing i reg cls with
  | nil => exact prec_of_not_mem (by simp [renderLoop])
  | cons hd rest ih =>
    by_cases hv : entryValid hd
    · simp only [renderLoop, hv, if_true]
      by_cases hs : env.synthOk i
      · simp only [hs, if_true]
        rcases hp : env.probe i with u | d
        · by_cases hij : j = i
          · subst hij; exact prec_cons (by simp) (prec_head (by simp))
          · exact prec_of_not_mem (by simp [hij])
        · by_cases hdb : durBad d
          · simp only [hdb, if_true]
            by_cases hij : j = i
            · subst hij; exact prec_cons (by simp) (prec_head (by simp))
            · exact prec_of_not_mem (by simp [hij])
          · simp only [hdb, if_false, Bool.false_eq_true]
            by_cases hl : env.loopOk i
            · simp only [hl, if_true]
              by_cases hij : j = i
              · subst hij; exact prec_cons (by simp) (prec_head (by simp))
              · exact prec_append_left (by simp [hij]) (ih (i + 1) _ _)
            · simp only [hl, if_false, Bool.false_eq_true]
              by_cases hij : j = i
              · subst hij; exact prec_cons (by simp) (prec_head (by simp))
              · exact prec_of_not_mem (by simp [hij])
      · simp only [hs, if_false, Bool.false_eq_true]
        by_cases hij : j = i
        · subst hij; exact prec_cons (by simp) (prec_head (by simp))
        · exact prec_of_not_mem (by simp [hij])
    · simp only [renderLoop, hv, if_false, Bool.false_eq_true]
      exact ih (i + 1) _ _

end AIVid

namespace AIVid

/-! ## Handler trace decomposition -/

/-- The prompt parts the handler hands to Gemini. -/
def theParts (req : Request) (env : Env) : List Part :=
  prepareTopicParts req.topicText req.youtubeUrl req.topicFile env.transcript
    (normalizedLength req.podcastLength)

/-- The downloaded-video registrations (lines 341-346) as a function of
whether each speaker's resolution used the uploaded file. -/
def regVids (mu wu : Bool) : List Artifact :=
  (if mu then [] else [.manVideo]) ++ (if wu then [] else [.womanVideo])

/-- Events of one successful source resolution. -/
def vidEv (up : Bool) (a : Artifact) : List Event :=
  if up then [] else [.create a]

/-- Common prefix of every trace that got past source resolution. -/
def stemEv (req : Request) (env : Env) (mu wu : Bool) : List Event :=
  [.composeTopic (theParts req env), .geminiCall] ++ vidEv mu .manVideo
    ++ vidEv wu .womanVideo ++ (regVids mu wu).map .register

theorem resolveSrc_cases (opt : String) (up dl : Bool) (art : Artifact) :
    resolveSrc opt up dl art = ([], some true)
    ∨ resolveSrc opt up dl art = ([], none)
    ∨ resolveSrc opt up dl art = ([.create art], some false)
    ∨ resolveSrc opt up dl art = ([.create art], none) := by
  unfold resolveSrc
  split_ifs <;> simp

theorem runHandler_cases (req : Request) (env : Env) :
    runHandler req env = [.respond400]
    ∨ runHandler req env = katch [.composeTopic (theParts req env), .geminiCall] []
    ∨ (∃ em, (em = ([] : List Event) ∨ em = [.create Artifact.manVideo])
        ∧ runHandler req env = katch ([.composeTopic (theParts req env), .geminiCall] ++ em) [])
    ∨ (∃ mu ew, (ew = ([] : List Event) ∨ ew = [.create Artifact.womanVideo])
        ∧ runHandler req env
          = katch ([.composeTopic (theParts req env), .geminiCall] ++ vidEv mu .manVideo ++ ew) [])
    ∨ (∃ mu wu sc, env.gemini = Except.ok sc
        ∧ ((renderLoop env sc 0 (regVids mu wu) []).ok = false
            ∨ (renderLoop env sc 0 (regVids mu wu) []).clips = [])
        ∧ runHandler req env
          = katch (stemEv req env mu wu ++ (renderLoop env sc 0 (regVids mu wu) []).ev)
              (renderLoop env sc 0 (regVids mu wu) []).reg)
    ∨ (∃ mu wu sc, env.gemini = Except.ok sc
        ∧ (renderLoop env sc 0 (regVids mu wu) []).ok = true
        ∧ (renderLoop env sc 0 (regVids mu wu) []).clips ≠ []
        ∧ env.concatOk = false
        ∧ runHandler req env
          = katch (stemEv req env mu wu ++ (renderLoop env sc 0 (regVids mu wu) []).ev
              ++ [.create .concatManifest, .concatCall (renderLoop env sc 0 (regVids mu wu) []).clips])
              (renderLoop env sc 0 (regVids mu wu) []).reg)
    ∨ (∃ mu wu sc, env.gemini = Except.ok sc
        ∧ (renderLoop env sc 0 (regVids mu wu) []).ok = true
        ∧ (renderLoop env sc 0 (regVids mu wu) []).clips ≠ []
        ∧ env.concatOk = true
        ∧ runHandler req env
          = stemEv req env mu wu ++ (renderLoop env sc 0 (regVids mu wu) []).ev
              ++ [.create .concatManifest, .concatCall (renderLoop env sc 0 (regVids mu wu) []).clips]
              ++ [.create .finalOutput, .deleteFile .concatManifest, .respond200]
              ++ (uploadArts req).map .register
              ++ [.scheduleTimer ((renderLoop env sc 0 (regVids mu wu) []).reg ++ uploadArts req)]) := by
  by_cases h1 : truthyStr req.apiKey
  · by_cases h2 : validateChirpVoice req.manVoice && validateChirpVoice req.womanVoice
    · rcases hg : env.gemini with u | sc
      · refine Or.inr (Or.inl ?_)
        simp [runHandler, h1, h2, hg, theParts]
      · rcases resolveSrc_cases (req.manVideoOption.getD "default") req.manVideoFile
          env.downloadMan .manVideo with hm | hm | hm | hm
        · -- man: custom upload used
          rcases resolveSrc_cases (req.womanVideoOption.getD "default") req.womanVideoFile
            env.downloadWoman .womanVideo with hw | hw | hw | hw
          · by_cases hok : (renderLoop env sc 0 ([] : List Artifact) []).ok
            · by_cases hcl : (renderLoop env sc 0 ([] : List Artifact) []).clips = []
              · refine Or.inr (Or.inr (Or.inr (Or.inr (Or.inl ⟨true, true, sc, rfl,
                  Or.inr (by simpa [regVids] using hcl), ?_⟩))))
                simp [runHandler, h1, h2, hg, hm, hw, hok, hcl, stemEv, vidEv, regVids, theParts]
              · have hcl2 : (renderLoop env sc 0 ([] : List Artifact) []).clips.isEmpty = false := by
                  simp [List.isEmpty_iff, hcl]
                by_cases hco : env.concatOk
                · refine Or.inr (Or.inr (Or.inr (Or.inr (Or.inr (Or.inr ⟨true, true, sc, rfl,
                    by simpa [regVids] using hok, by simpa [regVids] using hcl, hco, ?_⟩)))))
                  simp [runHandler, h1, h2, hg, hm, hw, hok, hcl2, hco, stemEv, vidEv, regVids, theParts]
                · have hco2 : env.concatOk = false := by simpa using hco
                  refine Or.inr (Or.inr (Or.inr (Or.inr (Or.inr (Or.inl ⟨true, true, sc, rfl,
                    by simpa [regVids] using hok, by simpa [regVids] using hcl, hco2, ?_⟩)))))
                  simp [runHandler, h1, h2, hg, hm, hw, hok, hcl2, hco2, stemEv, vidEv, regVids, theParts]
            · have hok2 : (renderLoop env sc 0 ([] : List Artifact) []).ok = false := by simpa using hok
              refine Or.inr (Or.inr (Or.inr (Or.inr (Or.inl ⟨true, true, sc, rfl,
                Or.inl (by simpa [regVids] using hok2), ?_⟩))))
              simp [runHandler, h1, h2, hg, hm, hw, hok2, stemEv, vidEv, regVids, theParts]
          · refine Or.inr (Or.inr (Or.inr (Or.inl ⟨true, [], Or.inl rfl, ?_⟩)))
            simp [runHandler, h1, h2, hg, hm, hw, vidEv, theParts]
          · by_cases hok : (renderLoop env sc 0 ([Artifact.womanVideo]) []).ok
            · by_cases hcl : (renderLoop env sc 0 ([Artifact.womanVideo]) []).clips = []
              · refine Or.inr (Or.inr (Or.inr (Or.inr (Or.inl ⟨true, false, sc, rfl,
                  Or.inr (by simpa [regVids] using hcl), ?_⟩))))
                simp [runHandler, h1, h2, hg, hm, hw, hok, hcl, stemEv, vidEv, regVids, theParts]
              · have hcl2 : (renderLoop env sc 0 ([Artifact.womanVideo]) []).clips.isEmpty = false := by
                  simp [List.isEmpty_iff, hcl]
                by_cases hco : env.concatOk
                · refine Or.inr (Or.inr (Or.inr (Or.inr (Or.inr (Or.inr ⟨true, false, sc, rfl,
                    by simpa [regVids] using hok, by simpa [regVids] using hcl, hco, ?_⟩)))))
                  simp [runHandler, h1, h2, hg, hm, hw, hok, hcl2, hco, stemEv, vidEv, regVids, theParts]
                · have hco2 : env.concatOk = false := by simpa using hco
                  refine Or.inr (Or.inr (Or.inr (Or.inr (Or.inr (Or.inl ⟨true, false, sc, rfl,
                    by simpa [regVids] using hok, by simpa [regVids] using hcl, hco2, ?_⟩)))))
                  simp [runHandler, h1, h2, hg, hm, hw, hok, hcl2, hco2, stemEv, vidEv, regVids, theParts]
            · have hok2 : (renderLoop env sc 0 ([Artifact.womanVideo]) []).ok = false := by simpa using hok
              refine Or.inr (Or.inr (Or.inr (Or.inr (Or.inl ⟨true, false, sc, rfl,
                Or.inl (by simpa [regVids] using hok2), ?_⟩))))
              simp [runHandler, h1, h2, hg, hm, hw, hok2, stemEv, vidEv, regVids, theParts]
          · refine Or.inr (Or.inr (Or.inr (Or.inl ⟨true, [.create Artifact.womanVideo], Or.inr rfl, ?_⟩)))
            simp [runHandler, h1, h2, hg, hm, hw, vidEv, theParts]
        · refine Or.inr (Or.inr (Or.inl ⟨[], Or.inl rfl, ?_⟩))
          simp [runHandler, h1, h2, hg, hm, theParts]
        · -- man: downloaded
          rcases resolveSrc_cases (req.womanVideoOption.getD "default") req.womanVideoFile
            env.downloadWoman .womanVideo with hw | hw | hw | hw
          · by_cases hok : (renderLoop env sc 0 ([Artifact.manVideo]) []).ok
            · by_cases hcl : (renderLoop env sc 0 ([Artifact.manVideo]) []).clips = []
              · refine Or.inr (Or.inr (Or.inr (Or.inr (Or.inl ⟨false, true, sc, rfl,
                  Or.inr (by simpa [regVids] using hcl), ?_⟩))))
                simp [runHandler, h1, h2, hg, hm, hw, hok, hcl, stemEv, vidEv, regVids, theParts]
              · have hcl2 : (renderLoop env sc 0 ([Artifact.manVideo]) []).clips.isEmpty = false := by
                  simp [List.isEmpty_iff, hcl]
                by_cases hco : env.concatOk
                · refine Or.inr (Or.inr (Or.inr (Or.inr (Or.inr (Or.inr ⟨false, true, sc, rfl,
                    by simpa [regVids] using hok, by simpa [regVids] using hcl, hco, ?_⟩)))))
                  simp [runHandler, h1, h2, hg, hm, hw, hok, hcl2, hco, stemEv, vidEv, regVids, theParts]
                · have hco2 : env.concatOk = false := by simpa using hco
                  refine Or.inr (Or.inr (Or.inr (Or.inr (Or.inr (Or.inl ⟨false, true, sc, rfl,
                    by simpa [regVids] using hok, by simpa [regVids] using hcl, hco2, ?_⟩)))))
                  simp [runHandler, h1, h2, hg, hm, hw, hok, hcl2, hco2, stemEv, vidEv, regVids, theParts]
            · have hok2 : (renderLoop env sc 0 ([Artifact.manVideo]) []).ok = false := by simpa using hok
              refine Or.inr (Or.inr (Or.inr (Or.inr (Or.inl ⟨false, true, sc, rfl,
                Or.inl (by simpa [regVids] using hok2), ?_⟩))))
              simp [runHandler, h1, h2, hg, hm, hw, hok2, stemEv, vidEv, regVids, theParts]
          · refine Or.inr (Or.inr (Or.inr (Or.inl ⟨false, [], Or.inl rfl, ?_⟩)))
            simp [runHandler, h1, h2, hg, hm, hw, vidEv, theParts]
          · by_cases hok : (renderLoop env sc 0 ([Artifact.manVideo, Artifact.womanVideo]) []).ok
            · by_cases hcl : (renderLoop env sc 0 ([Artifact.manVideo, Artifact.womanVideo]) []).clips = []
              · refine Or.inr (Or.inr (Or.inr (Or.inr (Or.inl ⟨false, false, sc, rfl,
                  Or.inr (by simpa [regVids] using hcl), ?_⟩))))
                simp [runHandler, h1, h2, hg, hm, hw, hok, hcl, stemEv, vidEv, regVids, theParts]
              · have hcl2 : (renderLoop env sc 0 ([Artifact.manVideo, Artifact.womanVideo]) []).clips.isEmpty = false := by
                  simp [List.isEmpty_iff, hcl]
                by_cases hco : env.concatOk
                · refine Or.inr (Or.inr (Or.inr (Or.inr (Or.inr (Or.inr ⟨false, false, sc, rfl,
                    by simpa [regVids] using hok, by simpa [regVids] using hcl, hco, ?_⟩)))))
                  simp [runHandler, h1, h2, hg, hm, hw, hok, hcl2, hco, stemEv, vidEv, regVids, theParts]
                · have hco2 : env.concatOk = false := by simpa using hco
                  refine Or.inr (Or.inr (Or.inr (Or.inr (Or.inr (Or.inl ⟨false, false, sc, rfl,
                    by simpa [regVids] using hok, by simpa [regVids] using hcl, hco2, ?_⟩)))))
                  simp [runHandler, h1, h2, hg, hm, hw, hok, hcl2, hco2, stemEv, vidEv, regVids, theParts]
            · have hok2 : (renderLoop env sc 0 ([Artifact.manVideo, Artifact.womanVideo]) []).ok = false := by simpa using hok
              refine Or.inr (Or.inr (Or.inr (Or.inr (Or.inl ⟨false, false, sc, rfl,
                Or.inl (by simpa [regVids] using hok2), ?_⟩))))
              simp [runHandler, h1, h2, hg, hm, hw, hok2, stemEv, vidEv, regVids, theParts]
          · refine Or.inr (Or.inr (Or.inr (Or.inl ⟨false, [.create Artifact.womanVideo], Or.inr rfl, ?_⟩)))
            simp [runHandler, h1, h2, hg, hm, hw, vidEv, theParts]
        · refine Or.inr (Or.inr (Or.inl ⟨[.create Artifact.manVideo], Or.inr rfl, ?_⟩))
          simp [runHandler, h1, h2, hg, hm, theParts]
    · exact Or.inl (by simp [runHandler, h1, h2])
  · exact Or.inl (by simp [runHandler, h1])

end AIVid

namespace AIVid

/-! ## Small helpers about traces, phases and artifact classes -/

theorem mem_katch {e : Event} {t : List Event} {reg : List Artifact} :
    e ∈ katch t reg ↔
      e ∈ t ∨ e = .cleanupRun reg ∨ e = .respond500 ∨ ∃ a ∈ reg, .deleteFile a = e := by
  simp [katch, or_assoc]

theorem renderLoop_not_mem {env : Env} {sc : List (Option ScriptEntry)} {i : Nat}
    {reg cls : List Artifact} {e : Event} (h : loopEvIdx e = none) :
    e ∉ (renderLoop env sc i reg cls).ev := by
  intro hm
  rcases renderLoop_ev_shape env sc i reg cls e hm with ⟨j, _, hj⟩
  rw [h] at hj
  exact Option.noConfusion hj

theorem phase40_of_loopIdx {e : Event} {j : Nat} (h : loopEvIdx e = some j) :
    phase e = some 40 := by
  cases e with
  | ttsCall i sp => rfl
  | probeCall i => rfl
  | loopCall i d => rfl
  | create a => cases a <;> simp_all [loopEvIdx, phase]
  | register a => cases a <;> simp_all [loopEvIdx, phase]
  | _ => simp_all [loopEvIdx]

theorem phase_deleteFile_interm {a : Artifact} (h : isInterm a = true) :
    phase (.deleteFile a) = none := by
  cases a <;> simp_all [isInterm, phase]

theorem regVids_interm (mu wu : Bool) : ∀ a ∈ regVids mu wu, isInterm a = true := by
  cases mu <;> cases wu <;> simp [regVids, isInterm]

theorem renderLoop_reg_interm (env : Env) (sc : List (Option ScriptEntry)) (i : Nat)
    (reg cls : List Artifact) (h : ∀ a ∈ reg, isInterm a = true) :
    ∀ a ∈ (renderLoop env sc i reg cls).reg, isInterm a = true := by
  intro a ha
  rcases renderLoop_reg_shape env sc i reg cls a ha with ha' | ⟨j, _, rfl | rfl⟩
  · exact h a ha'
  · rfl
  · rfl

theorem uploadArts_upload (req : Request) : ∀ a ∈ uploadArts req, isUpload a = true := by
  unfold uploadArts
  split_ifs <;> simp_all [isUpload]

theorem stemEv_mem {e : Event} {req : Request} {env : Env} {mu wu : Bool}
    (h : e ∈ stemEv req env mu wu) :
    e = .composeTopic (theParts req env) ∨ e = .geminiCall
      ∨ e = .create .manVideo ∨ e = .create .womanVideo
      ∨ e = .register .manVideo ∨ e = .register .womanVideo := by
  cases mu <;> cases wu <;> simp [stemEv, vidEv, regVids] at h <;> tauto

theorem pairwise_le_append (n : Nat) {l1 l2 : List Nat}
    (h1 : l1.Pairwise (· ≤ ·)) (h2 : l2.Pairwise (· ≤ ·))
    (hub : ∀ x ∈ l1, x ≤ n) (hlb : ∀ y ∈ l2, n ≤ y) :
    (l1 ++ l2).Pairwise (· ≤ ·) :=
  List.pairwise_append.mpr ⟨h1, h2, fun a ha b hb => le_trans (hub a ha) (hlb b hb)⟩

theorem pairwise_le_of_const {l : List Nat} {c : Nat} (h : ∀ x ∈ l, x = c) :
    l.Pairwise (· ≤ ·) := by
  induction l with
  | nil => exact List.Pairwise.nil
  | cons x t ih =>
    rw [List.pairwise_cons]
    refine ⟨fun b hb => ?_, ih fun y hy => h y (List.mem_cons_of_mem x hy)⟩
    rw [h x (List.mem_cons_self x t), h b (List.mem_cons_of_mem x hb)]

end AIVid

namespace AIVid

/-! ## Concrete fixtures used by witnesses and counterexamples -/

/-- A well-formed request: valid Chirp voices, no uploads, default videos,
`podcastLength` an invalid numeric string (so the effective length is 5). -/
def reqA : Request :=
  ⟨some "k", none, none, some "abc", none, some "chirp-m", some "chirp-w",
    none, none, none, none, false, false, false⟩

/-- Like `reqA` but with an uppercase voice name. -/
def reqC10 : Request := { reqA with manVoice := some "CHIRP" }

/-- Like `reqA` but with an uploaded topic file. -/
def reqUp : Request := { reqA with topicFile := true }

/-- The spec's example dialogue: two good lines, then a null entry, then an
entry with empty speaker and text. -/
def scriptA : List (Option ScriptEntry) :=
  [some ⟨some "Man", some "Hi"⟩, some ⟨some "Woman", some "Hello"⟩, none,
    some ⟨some "", some ""⟩]

/-- Oracle where every external call succeeds (probed durations are
`Infinity`, which the duration guard accepts). -/
def envOkA : Env :=
  ⟨none, .ok scriptA, true, true, fun _ => true, fun _ => .ok (some .inf),
    fun _ => true, true⟩

def envConcatFail : Env := { envOkA with concatOk := false }

def envSynthFail : Env := { envOkA with synthOk := fun _ => false }

def envGemFail : Env := { envOkA with gemini := .error () }

def envNegDur : Env := { envOkA with probe := fun _ => .ok (some (.num (-1))) }

def envWomanDlFail : Env := { envOkA with downloadWoman := false }

/-! ## C9 -/

/-- C9: a dialogue line is routed to the woman's voice and background video
exactly when its speaker label contains the token `woman` as a
case-insensitive substring; otherwise it is routed to the man's. -/
theorem spec_c9_speaker_routing (s : String) :
    routeSpeaker s = .woman ↔
      ∃ pre mid post : List Char, s.data = pre ++ mid ++ post ∧ jsToLower mid = womanTok := by
  constructor
  · intro hw
    have hc : jsIncludes (jsToLower s.data) womanTok = true := by
      by_contra hc
      simp [routeSpeaker, hc] at hw
    rcases jsIncludes_iff.mp hc with ⟨u, v, huv⟩
    have huv' : s.data.map Char.toLower = (u ++ womanTok) ++ v := by
      simpa [jsToLower, List.append_assoc] using huv
    rcases List.map_eq_append_iff.mp huv' with ⟨l1, l2, hsplit, hl1, hl2⟩
    rcases List.map_eq_append_iff.mp hl1 with ⟨l11, l12, hsplit1, _, hl12⟩
    exact ⟨l11, l12, l2, by rw [hsplit, hsplit1, List.append_assoc], hl12⟩
  · rintro ⟨pre, mid, post, hs, hm⟩
    have hc : jsIncludes (jsToLower s.data) womanTok = true := by
      apply jsIncludes_iff.mpr
      refine ⟨pre.map Char.toLower, post.map Char.toLower, ?_⟩
      rw [jsToLower, hs]
      simp only [List.map_append]
      rw [show mid.map Char.toLower = womanTok from hm]
    simp [routeSpeaker, hc]

/-! ## C10 -/

/-- C10: voice-family validation is a case-sensitive check for the literal
substring `chirp`; a request whose `manVoice` or `womanVoice` fails it is
answered 400 with no backend call, no rendering and no artifact creation. -/
theorem spec_c10_voice_validation (req : Request) (env : Env)
    (h : validateChirpVoice req.manVoice = false ∨ validateChirpVoice req.womanVoice = false) :
    runHandler req env = [.respond400]
      ∧ .respond200 ∉ runHandler req env
      ∧ .respond500 ∉ runHandler req env
      ∧ .geminiCall ∉ runHandler req env
      ∧ (∀ i sp, .ttsCall i sp ∉ runHandler req env)
      ∧ (∀ a : Artifact, .create a ∉ runHandler req env) := by
  have ht : runHandler req env = [.respond400] := by
    unfold runHandler
    by_cases h1 : truthyStr req.apiKey
    · have h2 : (validateChirpVoice req.manVoice && validateChirpVoice req.womanVoice) = false := by
        rcases h with h | h <;> simp [h]
      simp [h1, h2]
    · simp [h1]
  rw [ht]
  refine ⟨rfl, by simp, by simp, by simp, fun i sp => by simp, fun a => by simp⟩

/-- Witness for C10: a voice name containing only uppercase `CHIRP` is
rejected before any call or artifact. -/
theorem spec_c10_witness :
    validateChirpVoice reqC10.manVoice = false
      ∧ (runHandler reqC10 envOkA = [.respond400]
          ∧ .respond200 ∉ runHandler reqC10 envOkA
          ∧ .respond500 ∉ runHandler reqC10 envOkA
          ∧ .geminiCall ∉ runHandler reqC10 envOkA
          ∧ (∀ i sp, .ttsCall i sp ∉ runHandler reqC10 envOkA)
          ∧ (∀ a : Artifact, .create a ∉ runHandler reqC10 envOkA)) :=
  ⟨by decide, spec_c10_voice_validation reqC10 envOkA (Or.inl (by decide))⟩

end AIVid

namespace AIVid

/-! ## C8 -/

theorem prepareTopicParts_head (tt yu : Option String) (hf : Bool) (tr : Option String)
    (len : ℚ) : ∃ rest, prepareTopicParts tt yu hf tr len = .intro len :: rest := by
  unfold prepareTopicParts
  split_ifs <;> exact ⟨_, rfl⟩

theorem theParts_head (req : Request) (env : Env) :
    ∃ rest, theParts req env = .intro (normalizedLength req.podcastLength) :: rest :=
  prepareTopicParts_head _ _ _ _ _

/-- Any `composeTopic` event in a trace carries exactly the parts the handler
built for this request. -/
theorem composeTopic_only (req : Request) (env : Env) (P : List Part)
    (h : .composeTopic P ∈ runHandler req env) : P = theParts req env := by
  rcases runHandler_cases req env with h1 | h2 | ⟨em, hem, h3⟩ | ⟨mu, ew, hew, h4⟩
    | ⟨mu, wu, sc, hg, hfail, h5⟩ | ⟨mu, wu, sc, hg, hok, hcl, hco, h6⟩
    | ⟨mu, wu, sc, hg, hok, hcl, hco, h7⟩
  · rw [h1] at h; simp at h
  · rw [h2] at h
    rcases mem_katch.mp h with hin | hin | hin | ⟨a, _, hin⟩
    · simpa using hin
    · simp at hin
    · simp at hin
    · simp at hin
  · rw [h3] at h
    rcases mem_katch.mp h with hin | hin | hin | ⟨a, _, hin⟩
    · simp only [List.mem_append] at hin
      rcases hin with hin | hin
      · simpa using hin
      · rcases hem with rfl | rfl <;> simp at hin
    · simp at hin
    · simp at hin
    · simp at hin
  · rw [h4] at h
    rcases mem_katch.mp h with hin | hin | hin | ⟨a, _, hin⟩
    · simp only [List.mem_append] at hin
      rcases hin with (hin | hin) | hin
      · simpa using hin
      · cases mu <;> simp [vidEv] at hin
      · rcases hew with rfl | rfl <;> simp at hin
    · simp at hin
    · simp at hin
    · simp at hin
  · rw [h5] at h
    rcases mem_katch.mp h with hin | hin | hin | ⟨a, _, hin⟩
    · rcases List.mem_append.mp hin with hin | hin
      · rcases stemEv_mem hin with he | he | he | he | he | he
        · simpa using he
        · simp at he
        · simp at he
        · simp at he
        · simp at he
        · simp at he
      · exact absurd hin (renderLoop_not_mem rfl)
    · simp at hin
    · simp at hin
    · simp at hin
  · rw [h6] at h
    rcases mem_katch.mp h with hin | hin | hin | ⟨a, _, hin⟩
    · rcases List.mem_append.mp hin with hin | hin
      · rcases List.mem_append.mp hin with hin | hin
        · rcases stemEv_mem hin with he | he | he | he | he | he
          · simpa using he
          · simp at he
          · simp at he
          · simp at he
          · simp at he
          · simp at he
        · exact absurd hin (renderLoop_not_mem rfl)
      · simp at hin
    · simp at hin
    · simp at hin
    · simp at hin
  · rw [h7] at h
    simp only [List.append_assoc, List.mem_append] at h
    rcases h with hin | hin | hin | hin | hin | hin
    · rcases stemEv_mem hin with he | he | he | he | he | he
      · simpa using he
      · simp at he
      · simp at he
      · simp at he
      · simp at he
      · simp at he
    · exact absurd hin (renderLoop_not_mem rfl)
    · simp at hin
    · simp at hin
    · rcases List.mem_map.mp hin with ⟨a, _, hin⟩
      simp at hin
    · simp at hin

/-- C8: the effective podcast length embedded in the generator prompt equals
the parsed `podcastLength` when that parse is a finite positive number, and
5 otherwise (missing field, non-numeric, or non-positive). -/
theorem spec_c8_effective_length (req : Request) (env : Env) (P : List Part)
    (h : .composeTopic P ∈ runHandler req env) :
    ∃ rest, P = .intro (specEffectiveLength req.podcastLength) :: rest := by
  rcases theParts_head req env with ⟨rest, hr⟩
  refine ⟨rest, ?_⟩
  rw [composeTopic_only req env P h, hr, normalizedLength_eq_spec]

/-- Witness for C8: `podcastLength = "abc"` falls back to 5 in the prompt. -/
theorem spec_c8_witness :
    (.composeTopic (theParts reqA envOkA) ∈ runHandler reqA envOkA)
      ∧ specEffectiveLength reqA.podcastLength = 5
      ∧ ∃ rest, theParts reqA envOkA
          = .intro (specEffectiveLength reqA.podcastLength) :: rest :=
  ⟨by decide, by decide,
    spec_c8_effective_length reqA envOkA (theParts reqA envOkA) (by decide)⟩

end AIVid

namespace AIVid

/-! ## C1 -/

theorem not_mem_katch {e : Event} {t : List Event} {reg : List Artifact}
    (h1 : e ∉ t) (h2 : e ≠ .cleanupRun reg) (h3 : e ≠ .respond500)
    (h4 : ∀ a ∈ reg, .deleteFile a ≠ e) : e ∉ katch t reg := by
  intro hc
  rcases mem_katch.mp hc with h | h | h | ⟨a, ha, h⟩
  · exact h1 h
  · exact h2 h
  · exact h3 h
  · exact h4 a ha h

theorem not_mem_stem {e : Event} {req : Request} {env : Env} {mu wu : Bool}
    (h1 : e ≠ .composeTopic (theParts req env)) (h2 : e ≠ .geminiCall)
    (h3 : e ≠ .create .manVideo) (h4 : e ≠ .create .womanVideo)
    (h5 : e ≠ .register .manVideo) (h6 : e ≠ .register .womanVideo) :
    e ∉ stemEv req env mu wu := by
  intro hc
  rcases stemEv_mem hc with h | h | h | h | h | h
  · exact h1 h
  · exact h2 h
  · exact h3 h
  · exact h4 h
  · exact h5 h
  · exact h6 h

theorem respond500_mem_katch (t : List Event) (reg : List Artifact) :
    Event.respond500 ∈ katch t reg :=
  mem_katch.mpr (Or.inr (Or.inr (Or.inl rfl)))

/-- C1: in any run whose script is the dialogue `sc`, concatenation (when it
happens) receives exactly one clip per surviving dialogue entry, in document
order; and if every entry is filtered out, the run answers 500 and never
creates the output file. -/
theorem spec_c1_filtering (req : Request) (env : Env) (sc : List (Option ScriptEntry))
    (hg : env.gemini = Except.ok sc) :
    (∀ L, .concatCall L ∈ runHandler req env → L = (filteredIdx sc 0).map Artifact.clip)
      ∧ (filteredIdx sc 0 = [] →
          .respond200 ∉ runHandler req env
            ∧ .create .finalOutput ∉ runHandler req env
            ∧ (.geminiCall ∈ runHandler req env → .respond500 ∈ runHandler req env)) := by
  rcases runHandler_cases req env with h1 | h2 | ⟨em, hem, h3⟩ | ⟨mu, ew, hew, h4⟩
    | ⟨mu, wu, sc', hg', hfail, h5⟩ | ⟨mu, wu, sc', hg', hok, hcl, hco, h6⟩
    | ⟨mu, wu, sc', hg', hok, hcl, hco, h7⟩
  · rw [h1]
    exact ⟨fun L hL => by simp at hL, fun _ => ⟨by simp, by simp, fun hgem => by simp at hgem⟩⟩
  · rw [h2]
    refine ⟨fun L hL => ?_, fun _ => ⟨?_, ?_, fun _ => respond500_mem_katch _ _⟩⟩
    · exact absurd hL (not_mem_katch (by simp) (by simp) (by simp) (by simp))
    · exact not_mem_katch (by simp) (by simp) (by simp) (by simp)
    · exact not_mem_katch (by simp) (by simp) (by simp) (by simp)
  · rw [h3]
    refine ⟨fun L hL => ?_, fun _ => ⟨?_, ?_, fun _ => respond500_mem_katch _ _⟩⟩
    · refine absurd hL (not_mem_katch ?_ (by simp) (by simp) (by simp))
      rcases hem with rfl | rfl <;> simp
    · refine not_mem_katch ?_ (by simp) (by simp) (by simp)
      rcases hem with rfl | rfl <;> simp
    · refine not_mem_katch ?_ (by simp) (by simp) (by simp)
      rcases hem with rfl | rfl <;> simp
  · rw [h4]
    refine ⟨fun L hL => ?_, fun _ => ⟨?_, ?_, fun _ => respond500_mem_katch _ _⟩⟩
    · refine absurd hL (not_mem_katch ?_ (by simp) (by simp) (by simp))
      rcases hew with rfl | rfl <;> cases mu <;> simp [vidEv]
    · refine not_mem_katch ?_ (by simp) (by simp) (by simp)
      rcases hew with rfl | rfl <;> cases mu <;> simp [vidEv]
    · refine not_mem_katch ?_ (by simp) (by simp) (by simp)
      rcases hew with rfl | rfl <;> cases mu <;> simp [vidEv]
  · rw [h5]
    have hsc : sc' = sc := by rw [hg] at hg'; exact (Except.ok.inj hg').symm
    refine ⟨fun L hL => ?_, fun _ => ⟨?_, ?_, fun _ => respond500_mem_katch _ _⟩⟩
    · refine absurd hL (not_mem_katch ?_ (by simp) (by simp) (by simp))
      intro hc
      rcases List.mem_append.mp hc with hc | hc
      · exact not_mem_stem (by simp) (by simp) (by simp) (by simp) (by simp) (by simp) hc
      · exact absurd hc (renderLoop_not_mem rfl)
    · refine not_mem_katch ?_ (by simp) (by simp) (by simp)
      intro hc
      rcases List.mem_append.mp hc with hc | hc
      · exact not_mem_stem (by simp) (by simp) (by simp) (by simp) (by simp) (by simp) hc
      · exact absurd hc (renderLoop_not_mem rfl)
    · refine not_mem_katch ?_ (by simp) (by simp) (by simp)
      intro hc
      rcases List.mem_append.mp hc with hc | hc
      · exact not_mem_stem (by simp) (by simp) (by simp) (by simp) (by simp) (by simp) hc
      · exact absurd hc (renderLoop_not_mem rfl)
  · have hsc : sc' = sc := by rw [hg] at hg'; exact (Except.ok.inj hg').symm
    subst hsc
    rw [h6]
    constructor
    · intro L hL
      rcases mem_katch.mp hL with hin | hin | hin | ⟨a, _, hin⟩
      · rcases List.mem_append.mp hin with hin | hin
        · rcases List.mem_append.mp hin with hin | hin
          · exact absurd hin
              (not_mem_stem (by simp) (by simp) (by simp) (by simp) (by simp) (by simp))
          · exact absurd hin (renderLoop_not_mem rfl)
        · simp only [List.mem_cons, List.not_mem_nil, or_false] at hin
          rcases hin with hin | hin
          · exact absurd hin (by simp)
          · rw [Event.concatCall.inj hin]
            rw [renderLoop_ok_clips env sc' 0 (regVids mu wu) [] hok]
            simp
      · simp at hin
      · simp at hin
      · simp at hin
    · intro hfe
      exfalso
      apply hcl
      rw [renderLoop_ok_clips env sc' 0 (regVids mu wu) [] hok, hfe]
      simp
  · have hsc : sc' = sc := by rw [hg] at hg'; exact (Except.ok.inj hg').symm
    subst hsc
    rw [h7]
    constructor
    · intro L hL
      simp only [List.append_assoc, List.mem_append] at hL
      rcases hL with hin | hin | hin | hin | hin | hin
      · exact absurd hin
          (not_mem_stem (by simp) (by simp) (by simp) (by simp) (by simp) (by simp))
      · exact absurd hin (renderLoop_not_mem rfl)
      · simp only [List.mem_cons, List.not_mem_nil, or_false] at hin
        rcases hin with hin | hin
        · exact absurd hin (by simp)
        · rw [Event.concatCall.inj hin]
          rw [renderLoop_ok_clips env sc' 0 (regVids mu wu) [] hok]
          simp
      · simp at hin
      · rcases List.mem_map.mp hin with ⟨a, _, hin⟩
        simp at hin
      · simp at hin
    · intro hfe
      exfalso
      apply hcl
      rw [renderLoop_ok_clips env sc' 0 (regVids mu wu) [] hok, hfe]
      simp

/-- Witness for C1: the spec's four-entry dialogue keeps entries 1 and 2 and
renders exactly those two clips, in order. -/
theorem spec_c1_witness :
    envOkA.gemini = Except.ok scriptA
      ∧ filteredIdx scriptA 0 = [0, 1]
      ∧ .concatCall [Artifact.clip 0, Artifact.clip 1] ∈ runHandler reqA envOkA
      ∧ (∀ L, .concatCall L ∈ runHandler reqA envOkA →
          L = (filteredIdx scriptA 0).map Artifact.clip) :=
  ⟨rfl, by decide, by decide, (spec_c1_filtering reqA envOkA scriptA rfl).1⟩

end AIVid

namespace AIVid

/-! ## C7 -/

theorem renderLoop_probeBad_fail (env : Env) (sc : List (Option ScriptEntry)) (j : Nat)
    (reg cls : List Artifact) (i : Nat) (dd : Option JsNum)
    (h1 : env.probe i = .ok dd) (h2 : durBad dd = true)
    (h3 : .probeCall i ∈ (renderLoop env sc j reg cls).ev) :
    (renderLoop env sc j reg cls).ok = false := by
  induction sc generalizing j reg cls with
  | nil => simp [renderLoop] at h3
  | cons hd rest ih =>
    by_cases hv : entryValid hd
    · simp only [renderLoop, hv, if_true] at h3 ⊢
      by_cases hs : env.synthOk j
      · simp only [hs, if_true] at h3 ⊢
        rcases hp : env.probe j with u | d
        · rfl
        · rw [hp] at h3
          by_cases hdb : durBad d
          · simp only [hdb, if_true] at h3 ⊢
          · simp only [hdb, if_false, Bool.false_eq_true] at h3 ⊢
            by_cases hl : env.loopOk j
            · simp only [hl, if_true] at h3 ⊢
              by_cases hij : i = j
              · subst hij
                rw [h1] at hp
                have hdd : dd = d := Except.ok.inj hp
                rw [hdd] at h2
                exact absurd h2 hdb
              · refine ih (j + 1) _ _ ?_
                simp only [List.cons_append, List.nil_append, List.mem_cons,
                  List.mem_append] at h3
                rcases h3 with h3 | h3 | h3 | h3 | h3 | h3 | h3 | h3
                · exact absurd h3 (by simp)
                · exact absurd h3 (by simp)
                · exact absurd h3 (by simp)
                · exact absurd h3 (by simp)
                · exact absurd h3 (by simp [hij])
                · exact absurd h3 (by simp)
                · exact absurd h3 (by simp)
                · exact h3
            · simp only [hl, if_false, Bool.false_eq_true] at h3 ⊢
      · simp only [hs, if_false, Bool.false_eq_true] at h3 ⊢
    · simp only [renderLoop, hv, if_false, Bool.false_eq_true] at h3 ⊢
      exact ih (j + 1) _ _ h3

/-- C7 amended: clip assembly is only ever invoked with a duration that
passes the source's guard, i.e. one that is neither `NaN` nor `0` (negative
and infinite durations do pass); and whenever the probed duration is
undefined, zero or `NaN`, the run fails with a 500 instead of assembling
that line's clip. -/
theorem spec_c7_duration_guard (req : Request) (env : Env) :
    (∀ i d, .loopCall i d ∈ runHandler req env → d ≠ .nan ∧ d ≠ .num 0)
      ∧ (∀ i dd, env.probe i = .ok dd → durBad dd = true →
          .probeCall i ∈ runHandler req env → .respond500 ∈ runHandler req env) := by
  rcases runHandler_cases req env with h1 | h2 | ⟨em, hem, h3⟩ | ⟨mu, ew, hew, h4⟩
    | ⟨mu, wu, sc', hg', hfail, h5⟩ | ⟨mu, wu, sc', hg', hok, hcl, hco, h6⟩
    | ⟨mu, wu, sc', hg', hok, hcl, hco, h7⟩
  · rw [h1]
    exact ⟨fun i d hL => by simp at hL, fun i dd _ _ hp => by simp at hp⟩
  · rw [h2]
    refine ⟨fun i d hL => ?_, fun i dd _ _ _ => respond500_mem_katch _ _⟩
    exact absurd hL (not_mem_katch (by simp) (by simp) (by simp) (by simp))
  · rw [h3]
    refine ⟨fun i d hL => ?_, fun i dd _ _ _ => respond500_mem_katch _ _⟩
    refine absurd hL (not_mem_katch ?_ (by simp) (by simp) (by simp))
    rcases hem with rfl | rfl <;> simp
  · rw [h4]
    refine ⟨fun i d hL => ?_, fun i dd _ _ _ => respond500_mem_katch _ _⟩
    refine absurd hL (not_mem_katch ?_ (by simp) (by simp) (by simp))
    rcases hew with rfl | rfl <;> cases mu <;> simp [vidEv]
  · rw [h5]
    refine ⟨fun i d hL => ?_, fun i dd _ _ _ => respond500_mem_katch _ _⟩
    rcases mem_katch.mp hL with hin | hin | hin | ⟨a, _, hin⟩
    · rcases List.mem_append.mp hin with hin | hin
      · exact absurd hin
          (not_mem_stem (by simp) (by simp) (by simp) (by simp) (by simp) (by simp))
      · exact renderLoop_loopCall_good env sc' 0 (regVids mu wu) [] i d hin
    · simp at hin
    · simp at hin
    · simp at hin
  · rw [h6]
    constructor
    · intro i d hL
      rcases mem_katch.mp hL with hin | hin | hin | ⟨a, _, hin⟩
      · rcases List.mem_append.mp hin with hin | hin
        · rcases List.mem_append.mp hin with hin | hin
          · exact absurd hin
              (not_mem_stem (by simp) (by simp) (by simp) (by simp) (by simp) (by simp))
          · exact renderLoop_loopCall_good env sc' 0 (regVids mu wu) [] i d hin
        · simp at hin
      · simp at hin
      · simp at hin
      · simp at hin
    · intro i dd hpr hbad hp
      exfalso
      have hpc : .probeCall i ∈ (renderLoop env sc' 0 (regVids mu wu) []).ev := by
        rcases mem_katch.mp hp with hin | hin | hin | ⟨a, _, hin⟩
        · rcases List.mem_append.mp hin with hin | hin
          · rcases List.mem_append.mp hin with hin | hin
            · exact absurd hin
                (not_mem_stem (by simp) (by simp) (by simp) (by simp) (by simp) (by simp))
            · exact hin
          · simp at hin
        · simp at hin
        · simp at hin
        · simp at hin
      have := renderLoop_probeBad_fail env sc' 0 (regVids mu wu) [] i dd hpr hbad hpc
      rw [hok] at this
      exact Bool.noConfusion this
  · rw [h7]
    constructor
    · intro i d hL
      simp only [List.append_assoc, List.mem_append] at hL
      rcases hL with hin | hin | hin | hin | hin | hin
      · exact absurd hin
          (not_mem_stem (by simp) (by simp) (by simp) (by simp) (by simp) (by simp))
      · exact renderLoop_loopCall_good env sc' 0 (regVids mu wu) [] i d hin
      · simp at hin
      · simp at hin
      · rcases List.mem_map.mp hin with ⟨a, _, hin⟩
        simp at hin
      · simp at hin
    · intro i dd hpr hbad hp
      exfalso
      have hpc : .probeCall i ∈ (renderLoop env sc' 0 (regVids mu wu) []).ev := by
        simp only [List.append_assoc, List.mem_append] at hp
        rcases hp with hin | hin | hin | hin | hin | hin
        · exact absurd hin
            (not_mem_stem (by simp) (by simp) (by simp) (by simp) (by simp) (by simp))
        · exact hin
        · simp at hin
        · simp at hin
        · rcases List.mem_map.mp hin with ⟨a, _, hin⟩
          simp at hin
        · simp at hin
      have := renderLoop_probeBad_fail env sc' 0 (regVids mu wu) [] i dd hpr hbad hpc
      rw [hok] at this
      exact Bool.noConfusion this

/-- Witness for C7 (amended): in the all-good run, clip assembly for line 0
is invoked with the probed duration `Infinity`, which is neither `NaN`
nor `0`. -/
theorem spec_c7_witness :
    (.loopCall 0 .inf ∈ runHandler reqA envOkA)
      ∧ (JsNum.inf ≠ .nan ∧ JsNum.inf ≠ .num 0) :=
  ⟨by decide, (spec_c7_duration_guard reqA envOkA).1 0 .inf (by decide)⟩

/-- Counterexample for C7 as stated: a probed duration of `-1` is not a
positive finite number, yet the guard lets it through and clip assembly is
invoked with it. -/
theorem c7_counterexample :
    .loopCall 0 (.num (-1)) ∈ runHandler reqA envNegDur
      ∧ specPosFinite (.num (-1)) = false := by
  exact ⟨by decide, by decide⟩

end AIVid

namespace AIVid

/-! ## C2 -/

theorem not_mem_register_uploads {req : Request} {a0 : Artifact} (h : isUpload a0 = false) :
    Event.register a0 ∉ (uploadArts req).map .register := by
  intro hc
  rcases List.mem_map.mp hc with ⟨a, ha, hc2⟩
  have hu := uploadArts_upload req a ha
  rw [Event.register.inj hc2] at hu
  rw [hu] at h
  exact Bool.noConfusion h

theorem stem_prec_man (req : Request) (env : Env) (mu wu : Bool) :
    PrecededBy (stemEv req env mu wu) (.register .manVideo) (.create .manVideo) := by
  cases mu
  · exact prec_cons (by simp) (prec_cons (by simp) (prec_head (by simp)))
  · exact prec_of_not_mem (by cases wu <;> simp [stemEv, vidEv, regVids])

theorem stem_prec_woman (req : Request) (env : Env) (mu wu : Bool) :
    PrecededBy (stemEv req env mu wu) (.register .womanVideo) (.create .womanVideo) := by
  cases wu
  · cases mu
    · exact prec_cons (by simp) (prec_cons (by simp) (prec_cons (by simp) (prec_head (by simp))))
    · exact prec_cons (by simp) (prec_cons (by simp) (prec_head (by simp)))
  · exact prec_of_not_mem (by cases mu <;> simp [stemEv, vidEv, regVids])

/-- C2 amended: audio and clip paths are registered for cleanup before their
files are created; a downloaded background video is created first and
registered only after both resolutions succeed; and the concat manifest is
never registered at all — it is deleted inline, and only when concatenation
succeeds. -/
theorem spec_c2_registration (req : Request) (env : Env) :
    (∀ j, PrecededBy (runHandler req env) (.create (.audio j)) (.register (.audio j)))
      ∧ (∀ j, PrecededBy (runHandler req env) (.create (.clip j)) (.register (.clip j)))
      ∧ .register .concatManifest ∉ runHandler req env
      ∧ PrecededBy (runHandler req env) (.register .manVideo) (.create .manVideo)
      ∧ PrecededBy (runHandler req env) (.register .womanVideo) (.create .womanVideo)
      ∧ (.create .concatManifest ∈ runHandler req env → env.concatOk = true →
          .deleteFile .concatManifest ∈ runHandler req env) := by
  rcases runHandler_cases req env with h1 | h2 | ⟨em, hem, h3⟩ | ⟨mu, ew, hew, h4⟩
    | ⟨mu, wu, sc', hg', hfail, h5⟩ | ⟨mu, wu, sc', hg', hok, hcl, hco, h6⟩
    | ⟨mu, wu, sc', hg', hok, hcl, hco, h7⟩
  · rw [h1]
    exact ⟨fun j => prec_of_not_mem (by simp), fun j => prec_of_not_mem (by simp),
      by simp, prec_of_not_mem (by simp), prec_of_not_mem (by simp),
      fun hc => by simp at hc⟩
  · rw [h2]
    refine ⟨fun j => prec_of_not_mem ?_, fun j => prec_of_not_mem ?_, ?_,
      prec_of_not_mem ?_, prec_of_not_mem ?_, fun hc => absurd hc ?_⟩
    all_goals exact not_mem_katch (by simp) (by simp) (by simp) (by simp)
  · rw [h3]
    refine ⟨fun j => prec_of_not_mem ?_, fun j => prec_of_not_mem ?_, ?_,
      prec_of_not_mem ?_, prec_of_not_mem ?_, fun hc => absurd hc ?_⟩
    all_goals
      refine not_mem_katch ?_ (by simp) (by simp) (by simp)
      rcases hem with rfl | rfl <;> simp
  · rw [h4]
    refine ⟨fun j => prec_of_not_mem ?_, fun j => prec_of_not_mem ?_, ?_,
      prec_of_not_mem ?_, prec_of_not_mem ?_, fun hc => absurd hc ?_⟩
    all_goals
      refine not_mem_katch ?_ (by simp) (by simp) (by simp)
      rcases hew with rfl | rfl <;> cases mu <;> simp [vidEv]
  · rw [h5]
    refine ⟨fun j => ?_, fun j => ?_, ?_, ?_, ?_, fun hc => absurd hc ?_⟩
    · exact prec_append_not_mem (prec_append_not_mem
        (prec_append_left
          (not_mem_stem (by simp) (by simp) (by simp) (by simp) (by simp) (by simp))
          (renderLoop_reg_before_create_audio env sc' 0 (regVids mu wu) [] j))
        (by simp)) (by simp)
    · exact prec_append_not_mem (prec_append_not_mem
        (prec_append_left
          (not_mem_stem (by simp) (by simp) (by simp) (by simp) (by simp) (by simp))
          (renderLoop_reg_before_create_clip env sc' 0 (regVids mu wu) [] j))
        (by simp)) (by simp)
    · refine not_mem_katch ?_ (by simp) (by simp) (by simp)
      intro hc
      rcases List.mem_append.mp hc with hc | hc
      · exact not_mem_stem (by simp) (by simp) (by simp) (by simp) (by simp) (by simp) hc
      · exact absurd hc (renderLoop_not_mem rfl)
    · exact prec_append_not_mem (prec_append_not_mem
        (prec_append_not_mem (stem_prec_man req env mu wu) (renderLoop_not_mem rfl))
        (by simp)) (by simp)
    · exact prec_append_not_mem (prec_append_not_mem
        (prec_append_not_mem (stem_prec_woman req env mu wu) (renderLoop_not_mem rfl))
        (by simp)) (by simp)
    · refine not_mem_katch ?_ (by simp) (by simp) (by simp)
      intro hc
      rcases List.mem_append.mp hc with hc | hc
      · exact not_mem_stem (by simp) (by simp) (by simp) (by simp) (by simp) (by simp) hc
      · exact absurd hc (renderLoop_not_mem rfl)
  · rw [h6]
    refine ⟨fun j => ?_, fun j => ?_, ?_, ?_, ?_, fun hc hco' => absurd hco' (by simp [hco])⟩
    · exact prec_append_not_mem (prec_append_not_mem (prec_append_not_mem
        (prec_append_left
          (not_mem_stem (by simp) (by simp) (by simp) (by simp) (by simp) (by simp))
          (renderLoop_reg_before_create_audio env sc' 0 (regVids mu wu) [] j))
        (by simp)) (by simp)) (by simp)
    · exact prec_append_not_mem (prec_append_not_mem (prec_append_not_mem
        (prec_append_left
          (not_mem_stem (by simp) (by simp) (by simp) (by simp) (by simp) (by simp))
          (renderLoop_reg_before_create_clip env sc' 0 (regVids mu wu) [] j))
        (by simp)) (by simp)) (by simp)
    · refine not_mem_katch ?_ (by simp) (by simp) (by simp)
      intro hc
      rcases List.mem_append.mp hc with hc | hc
      · rcases List.mem_append.mp hc with hc | hc
        · exact not_mem_stem (by simp) (by simp) (by simp) (by simp) (by simp) (by simp) hc
        · exact absurd hc (renderLoop_not_mem rfl)
      · simp at hc
    · exact prec_append_not_mem (prec_append_not_mem (prec_append_not_mem
        (prec_append_not_mem (stem_prec_man req env mu wu) (renderLoop_not_mem rfl))
        (by simp)) (by simp)) (by simp)
    · exact prec_append_not_mem (prec_append_not_mem (prec_append_not_mem
        (prec_append_not_mem (stem_prec_woman req env mu wu) (renderLoop_not_mem rfl))
        (by simp)) (by simp)) (by simp)
  · rw [h7]
    refine ⟨fun j => ?_, fun j => ?_, ?_, ?_, ?_, fun _ _ => ?_⟩
    · exact prec_append_not_mem (prec_append_not_mem (prec_append_not_mem
        (prec_append_not_mem
          (prec_append_left
            (not_mem_stem (by simp) (by simp) (by simp) (by simp) (by simp) (by simp))
            (renderLoop_reg_before_create_audio env sc' 0 (regVids mu wu) [] j))
          (by simp)) (by simp)) (by simp)) (by simp)
    · exact prec_append_not_mem (prec_append_not_mem (prec_append_not_mem
        (prec_append_not_mem
          (prec_append_left
            (not_mem_stem (by simp) (by simp) (by simp) (by simp) (by simp) (by simp))
            (renderLoop_reg_before_create_clip env sc' 0 (regVids mu wu) [] j))
          (by simp)) (by simp)) (by simp)) (by simp)
    · intro hc
      simp only [List.append_assoc, List.mem_append] at hc
      rcases hc with hc | hc | hc | hc | hc | hc
      · exact not_mem_stem (by simp) (by simp) (by simp) (by simp) (by simp) (by simp) hc
      · exact absurd hc (renderLoop_not_mem rfl)
      · simp at hc
      · simp at hc
      · rcases List.mem_map.mp hc with ⟨a, ha, hc⟩
        have hu := uploadArts_upload req a ha
        rw [show a = Artifact.concatManifest from by simpa using hc] at hu
        exact Bool.noConfusion hu
      · simp at hc
    · exact prec_append_not_mem (prec_append_not_mem (prec_append_not_mem
        (prec_append_not_mem (prec_append_not_mem (stem_prec_man req env mu wu)
          (renderLoop_not_mem rfl)) (by simp)) (by simp))
        (not_mem_register_uploads rfl)) (by simp)
    · exact prec_append_not_mem (prec_append_not_mem (prec_append_not_mem
        (prec_append_not_mem (prec_append_not_mem (stem_prec_woman req env mu wu)
          (renderLoop_not_mem rfl)) (by simp)) (by simp))
        (not_mem_register_uploads rfl)) (by simp)
    · simp only [List.append_assoc, List.mem_append]
      exact Or.inr (Or.inr (Or.inr (Or.inl (by simp))))

/-- Witness for C2 (amended): in the all-good run the manifest is created
and then deleted inline after successful concatenation. -/
theorem spec_c2_witness :
    (.create .concatManifest ∈ runHandler reqA envOkA)
      ∧ envOkA.concatOk = true
      ∧ .deleteFile .concatManifest ∈ runHandler reqA envOkA :=
  ⟨by decide, rfl, (spec_c2_registration reqA envOkA).2.2.2.2.2 (by decide) rfl⟩

/-- Counterexample for C2 as stated: when concatenation fails, the manifest
file has been created but was never registered for cleanup and is never
deleted — an artifact outside the cleanup registration. -/
theorem c2_counterexample :
    .create .concatManifest ∈ runHandler reqA envConcatFail
      ∧ .register .concatManifest ∉ runHandler reqA envConcatFail
      ∧ .deleteFile .concatManifest ∉ runHandler reqA envConcatFail := by
  exact ⟨by decide, by decide, by decide⟩

end AIVid

namespace AIVid

/-! ## C3 -/

theorem interm_ne_final {a : Artifact} (h : isInterm a = true) : a ≠ .finalOutput := by
  intro hc
  rw [hc] at h
  exact Bool.noConfusion h

theorem upload_ne_final {a : Artifact} (h : isUpload a = true) : a ≠ .finalOutput := by
  intro hc
  rw [hc] at h
  exact Bool.noConfusion h

/-- C3 amended: the final concatenated output file is never registered with
the cleanup mechanism and never deleted by the run; the deferred-cleanup
timer scheduled on success covers the intermediate artifacts and the
uploads, but not the final file, which is left on disk. -/
theorem spec_c3_final_file (req : Request) (env : Env) :
    .register .finalOutput ∉ runHandler req env
      ∧ .deleteFile .finalOutput ∉ runHandler req env
      ∧ (∀ L, .scheduleTimer L ∈ runHandler req env → Artifact.finalOutput ∉ L)
      ∧ (.respond200 ∈ runHandler req env → ∃ L, .scheduleTimer L ∈ runHandler req env) := by
  rcases runHandler_cases req env with h1 | h2 | ⟨em, hem, h3⟩ | ⟨mu, ew, hew, h4⟩
    | ⟨mu, wu, sc', hg', hfail, h5⟩ | ⟨mu, wu, sc', hg', hok, hcl, hco, h6⟩
    | ⟨mu, wu, sc', hg', hok, hcl, hco, h7⟩
  · rw [h1]
    exact ⟨by simp, by simp, fun L hL => by simp at hL, fun hr => by simp at hr⟩
  · rw [h2]
    refine ⟨?_, ?_, fun L hL => absurd hL ?_, fun hr => absurd hr ?_⟩
    all_goals exact not_mem_katch (by simp) (by simp) (by simp) (by simp)
  · rw [h3]
    refine ⟨?_, ?_, fun L hL => absurd hL ?_, fun hr => absurd hr ?_⟩
    all_goals
      refine not_mem_katch ?_ (by simp) (by simp) (by simp)
      rcases hem with rfl | rfl <;> simp
  · rw [h4]
    refine ⟨?_, ?_, fun L hL => absurd hL ?_, fun hr => absurd hr ?_⟩
    all_goals
      refine not_mem_katch ?_ (by simp) (by simp) (by simp)
      rcases hew with rfl | rfl <;> cases mu <;> simp [vidEv]
  · rw [h5]
    have hreg := renderLoop_reg_interm env sc' 0 (regVids mu wu) [] (regVids_interm mu wu)
    refine ⟨?_, ?_, fun L hL => absurd hL ?_, fun hr => absurd hr ?_⟩
    · refine not_mem_katch ?_ (by simp) (by simp) (by simp)
      intro hc
      rcases List.mem_append.mp hc with hc | hc
      · exact not_mem_stem (by simp) (by simp) (by simp) (by simp) (by simp) (by simp) hc
      · exact absurd hc (renderLoop_not_mem rfl)
    · refine not_mem_katch ?_ (by simp) (by simp)
        (fun a ha heq => interm_ne_final (hreg a ha) (Event.deleteFile.inj heq))
      intro hc
      rcases List.mem_append.mp hc with hc | hc
      · exact not_mem_stem (by simp) (by simp) (by simp) (by simp) (by simp) (by simp) hc
      · exact absurd hc (renderLoop_not_mem rfl)
    · refine not_mem_katch ?_ (by simp) (by simp) (by simp)
      intro hc
      rcases List.mem_append.mp hc with hc | hc
      · exact not_mem_stem (by simp) (by simp) (by simp) (by simp) (by simp) (by simp) hc
      · exact absurd hc (renderLoop_not_mem rfl)
    · refine not_mem_katch ?_ (by simp) (by simp) (by simp)
      intro hc
      rcases List.mem_append.mp hc with hc | hc
      · exact not_mem_stem (by simp) (by simp) (by simp) (by simp) (by simp) (by simp) hc
      · exact absurd hc (renderLoop_not_mem rfl)
  · rw [h6]
    have hreg := renderLoop_reg_interm env sc' 0 (regVids mu wu) [] (regVids_interm mu wu)
    refine ⟨?_, ?_, fun L hL => absurd hL ?_, fun hr => absurd hr ?_⟩
    · refine not_mem_katch ?_ (by simp) (by simp) (by simp)
      intro hc
      rcases List.mem_append.mp hc with hc | hc
      · rcases List.mem_append.mp hc with hc | hc
        · exact not_mem_stem (by simp) (by simp) (by simp) (by simp) (by simp) (by simp) hc
        · exact absurd hc (renderLoop_not_mem rfl)
      · simp at hc
    · refine not_mem_katch ?_ (by simp) (by simp)
        (fun a ha heq => interm_ne_final (hreg a ha) (Event.deleteFile.inj heq))
      intro hc
      rcases List.mem_append.mp hc with hc | hc
      · rcases List.mem_append.mp hc with hc | hc
        · exact not_mem_stem (by simp) (by simp) (by simp) (by simp) (by simp) (by simp) hc
        · exact absurd hc (renderLoop_not_mem rfl)
      · simp at hc
    · refine not_mem_katch ?_ (by simp) (by simp) (by simp)
      intro hc
      rcases List.mem_append.mp hc with hc | hc
      · rcases List.mem_append.mp hc with hc | hc
        · exact not_mem_stem (by simp) (by simp) (by simp) (by simp) (by simp) (by simp) hc
        · exact absurd hc (renderLoop_not_mem rfl)
      · simp at hc
    · refine not_mem_katch ?_ (by simp) (by simp) (by simp)
      intro hc
      rcases List.mem_append.mp hc with hc | hc
      · rcases List.mem_append.mp hc with hc | hc
        · exact not_mem_stem (by simp) (by simp) (by simp) (by simp) (by simp) (by simp) hc
        · exact absurd hc (renderLoop_not_mem rfl)
      · simp at hc
  · rw [h7]
    have hreg := renderLoop_reg_interm env sc' 0 (regVids mu wu) [] (regVids_interm mu wu)
    refine ⟨?_, ?_, fun L hL => ?_, fun _ => ?_⟩
    · intro hc
      simp only [List.append_assoc, List.mem_append] at hc
      rcases hc with hc | hc | hc | hc | hc | hc
      · exact not_mem_stem (by simp) (by simp) (by simp) (by simp) (by simp) (by simp) hc
      · exact absurd hc (renderLoop_not_mem rfl)
      · simp at hc
      · simp at hc
      · exact absurd hc (not_mem_register_uploads rfl)
      · simp at hc
    · intro hc
      simp only [List.append_assoc, List.mem_append] at hc
      rcases hc with hc | hc | hc | hc | hc | hc
      · exact not_mem_stem (by simp) (by simp) (by simp) (by simp) (by simp) (by simp) hc
      · exact absurd hc (renderLoop_not_mem rfl)
      · simp at hc
      · simp at hc
      · rcases List.mem_map.mp hc with ⟨a, _, hc⟩
        simp at hc
      · simp at hc
    · simp only [List.append_assoc, List.mem_append] at hL
      rcases hL with hc | hc | hc | hc | hc | hc
      · exact absurd hc
          (not_mem_stem (by simp) (by simp) (by simp) (by simp) (by simp) (by simp))
      · exact absurd hc (renderLoop_not_mem rfl)
      · simp at hc
      · simp at hc
      · rcases List.mem_map.mp hc with ⟨a, _, hc⟩
        simp at hc
      · simp only [List.mem_cons, List.not_mem_nil, or_false] at hc
        rw [Event.scheduleTimer.inj hc]
        intro hfin
        rcases List.mem_append.mp hfin with hfin | hfin
        · exact interm_ne_final (hreg _ hfin) rfl
        · exact upload_ne_final (uploadArts_upload req _ hfin) rfl
    · refine ⟨(renderLoop env sc' 0 (regVids mu wu) []).reg ++ uploadArts req, ?_⟩
      simp

/-- Witness for C3 (amended): the all-good run succeeds, schedules deferred
cleanup, and that cleanup list does not contain the final output. -/
theorem spec_c3_witness :
    (.respond200 ∈ runHandler reqA envOkA)
      ∧ (∃ L, .scheduleTimer L ∈ runHandler reqA envOkA)
      ∧ .register .finalOutput ∉ runHandler reqA envOkA :=
  ⟨by decide, (spec_c3_final_file reqA envOkA).2.2.2 (by decide),
    (spec_c3_final_file reqA envOkA).1⟩

/-- Counterexample for C3 as stated: a successful run creates the final
file, but never registers it for cleanup, never deletes it, and the
deferred-cleanup list excludes it. -/
theorem c3_counterexample :
    .respond200 ∈ runHandler reqA envOkA
      ∧ .create .finalOutput ∈ runHandler reqA envOkA
      ∧ .register .finalOutput ∉ runHandler reqA envOkA
      ∧ .deleteFile .finalOutput ∉ runHandler reqA envOkA
      ∧ (∃ L, .scheduleTimer L ∈ runHandler reqA envOkA ∧ Artifact.finalOutput ∉ L) := by
  refine ⟨by decide, by decide, by decide, by decide,
    ⟨[.manVideo, .womanVideo, .audio 0, .clip 0, .audio 1, .clip 1], by decide, by decide⟩⟩

end AIVid

namespace AIVid

/-! ## C5 -/

theorem respond200_ne_mem_katch_parts {req : Request} {env : Env} {mu wu : Bool}
    {sc' : List (Option ScriptEntry)} :
    Event.respond200 ∉ stemEv req env mu wu ++ (renderLoop env sc' 0 (regVids mu wu) []).ev := by
  intro hc
  rcases List.mem_append.mp hc with hc | hc
  · exact not_mem_stem (by simp) (by simp) (by simp) (by simp) (by simp) (by simp) hc
  · exact absurd hc (renderLoop_not_mem rfl)

/-- C5 amended: on every failing run, best-effort cleanup of the registered
artifacts is started (synchronously) before the 500 response is sent, but
the individual deletions complete only after the response — the trace always
ends `cleanupRun, respond500, deletions`; and no run ever answers both 200
and 500 (no partial result). -/
theorem spec_c5_failure_cleanup (req : Request) (env : Env) :
    (.respond500 ∈ runHandler req env →
        ∃ pre L, runHandler req env = pre ++ [.cleanupRun L, .respond500] ++ L.map .deleteFile)
      ∧ ¬(.respond200 ∈ runHandler req env ∧ .respond500 ∈ runHandler req env) := by
  rcases runHandler_cases req env with h1 | h2 | ⟨em, hem, h3⟩ | ⟨mu, ew, hew, h4⟩
    | ⟨mu, wu, sc', hg', hfail, h5⟩ | ⟨mu, wu, sc', hg', hok, hcl, hco, h6⟩
    | ⟨mu, wu, sc', hg', hok, hcl, hco, h7⟩
  · rw [h1]
    exact ⟨fun hr => by simp at hr, fun ⟨ha, _⟩ => by simp at ha⟩
  · rw [h2]
    refine ⟨fun _ => ⟨_, _, rfl⟩, fun ⟨ha, _⟩ => absurd ha ?_⟩
    exact not_mem_katch (by simp) (by simp) (by simp) (by simp)
  · rw [h3]
    refine ⟨fun _ => ⟨_, _, rfl⟩, fun ⟨ha, _⟩ => absurd ha ?_⟩
    refine not_mem_katch ?_ (by simp) (by simp) (by simp)
    rcases hem with rfl | rfl <;> simp
  · rw [h4]
    refine ⟨fun _ => ⟨_, _, rfl⟩, fun ⟨ha, _⟩ => absurd ha ?_⟩
    refine not_mem_katch ?_ (by simp) (by simp) (by simp)
    rcases hew with rfl | rfl <;> cases mu <;> simp [vidEv]
  · rw [h5]
    refine ⟨fun _ => ⟨_, _, rfl⟩, fun ⟨ha, _⟩ => absurd ha ?_⟩
    exact not_mem_katch respond200_ne_mem_katch_parts (by simp) (by simp) (by simp)
  · rw [h6]
    refine ⟨fun _ => ⟨_, _, rfl⟩, fun ⟨ha, _⟩ => absurd ha ?_⟩
    refine not_mem_katch ?_ (by simp) (by simp) (by simp)
    intro hc
    rcases List.mem_append.mp hc with hc | hc
    · exact respond200_ne_mem_katch_parts hc
    · simp at hc
  · rw [h7]
    refine ⟨fun hr => absurd hr ?_, fun ⟨_, hr⟩ => absurd hr ?_⟩
    all_goals
      intro hc
      simp only [List.append_assoc, List.mem_append] at hc
      rcases hc with hc | hc | hc | hc | hc | hc
      · exact not_mem_stem (by simp) (by simp) (by simp) (by simp) (by simp) (by simp) hc
      · exact absurd hc (renderLoop_not_mem rfl)
      · simp at hc
      · simp at hc
      · rcases List.mem_map.mp hc with ⟨a, _, hc⟩
        simp at hc
      · simp at hc

/-- Witness for C5 (amended): a run whose first synthesis fails ends with
cleanup-start, then the 500, then the deletions. -/
theorem spec_c5_witness :
    (.respond500 ∈ runHandler reqA envSynthFail)
      ∧ ∃ pre L, runHandler reqA envSynthFail
          = pre ++ [.cleanupRun L, .respond500] ++ L.map .deleteFile :=
  ⟨by decide, (spec_c5_failure_cleanup reqA envSynthFail).1 (by decide)⟩

/-- Counterexample for C5 as stated: in that failing run a registered
artifact's deletion happens after the 500 response, so deletion does not
complete synchronously before the error is surfaced. -/
theorem c5_counterexample :
    ∃ l1 l2, runHandler reqA envSynthFail = l1 ++ .respond500 :: l2
      ∧ .deleteFile (.audio 0) ∈ l2 := by
  refine ⟨[.composeTopic (theParts reqA envSynthFail), .geminiCall, .create .manVideo,
    .create .womanVideo, .register .manVideo, .register .womanVideo,
    .register (.audio 0), .register (.clip 0), .ttsCall 0 .man,
    .cleanupRun [.manVideo, .womanVideo, .audio 0, .clip 0]],
    [.deleteFile .manVideo, .deleteFile .womanVideo, .deleteFile (.audio 0),
      .deleteFile (.clip 0)], by decide, by decide⟩

/-! ## C6 -/

theorem interm_not_upload {a : Artifact} (h : isInterm a = true) : isUpload a = false := by
  cases a <;> simp_all [isInterm, isUpload]

/-- C6 amended: uploaded temporary files are registered for cleanup only on
the success path, after the response, and are then deleted by the deferred
timer; on failure the immediate cleanup covers only pipeline-owned
temporaries, and no upload is ever deleted during the request. -/
theorem spec_c6_upload_cleanup (req : Request) (env : Env) :
    (∀ L, .cleanupRun L ∈ runHandler req env → ∀ a, isUpload a = true → a ∉ L)
      ∧ (∀ L, .scheduleTimer L ∈ runHandler req env → ∀ a ∈ uploadArts req, a ∈ L)
      ∧ (∀ a, isUpload a = true → .deleteFile a ∉ runHandler req env) := by
  rcases runHandler_cases req env with h1 | h2 | ⟨em, hem, h3⟩ | ⟨mu, ew, hew, h4⟩
    | ⟨mu, wu, sc', hg', hfail, h5⟩ | ⟨mu, wu, sc', hg', hok, hcl, hco, h6⟩
    | ⟨mu, wu, sc', hg', hok, hcl, hco, h7⟩
  · rw [h1]
    exact ⟨fun L hL => by simp at hL, fun L hL => by simp at hL,
      fun a _ hc => by simp at hc⟩
  · rw [h2]
    refine ⟨fun L hL a hu => ?_, fun L hL => ?_, fun a hu => ?_⟩
    · rcases mem_katch.mp hL with hin | hin | hin | ⟨b, hb, hin⟩
      · simp at hin
      · rw [Event.cleanupRun.inj hin]
        simp
      · simp at hin
      · simp at hin
    · exact absurd hL (not_mem_katch (by simp) (by simp) (by simp) (by simp))
    · exact not_mem_katch (by simp) (by simp) (by simp) (by simp)
  · rw [h3]
    refine ⟨fun L hL a hu => ?_, fun L hL => ?_, fun a hu => ?_⟩
    · rcases mem_katch.mp hL with hin | hin | hin | ⟨b, hb, hin⟩
      · rcases hem with rfl | rfl <;> simp at hin
      · rw [Event.cleanupRun.inj hin]
        simp
      · simp at hin
      · simp at hin
    · refine absurd hL (not_mem_katch ?_ (by simp) (by simp) (by simp))
      rcases hem with rfl | rfl <;> simp
    · refine not_mem_katch ?_ (by simp) (by simp) (by simp)
      rcases hem with rfl | rfl <;> simp
  · rw [h4]
    refine ⟨fun L hL a hu => ?_, fun L hL => ?_, fun a hu => ?_⟩
    · rcases mem_katch.mp hL with hin | hin | hin | ⟨b, hb, hin⟩
      · rcases hew with rfl | rfl <;> cases mu <;> simp [vidEv] at hin
      · rw [Event.cleanupRun.inj hin]
        simp
      · simp at hin
      · simp at hin
    · refine absurd hL (not_mem_katch ?_ (by simp) (by simp) (by simp))
      rcases hew with rfl | rfl <;> cases mu <;> simp [vidEv]
    · refine not_mem_katch ?_ (by simp) (by simp) (by simp)
      rcases hew with rfl | rfl <;> cases mu <;> simp [vidEv]
  · rw [h5]
    have hreg := renderLoop_reg_interm env sc' 0 (regVids mu wu) [] (regVids_interm mu wu)
    refine ⟨fun L hL a hu => ?_, fun L hL => ?_, fun a hu => ?_⟩
    · rcases mem_katch.mp hL with hin | hin | hin | ⟨b, hb, hin⟩
      · exact absurd hin (by
          intro hc
          rcases List.mem_append.mp hc with hc | hc
          · exact not_mem_stem (by simp) (by simp) (by simp) (by simp) (by simp) (by simp) hc
          · exact absurd hc (renderLoop_not_mem rfl))
      · rw [Event.cleanupRun.inj hin]
        intro hmem
        have := interm_not_upload (hreg a hmem)
        rw [hu] at this
        exact Bool.noConfusion this
      · simp at hin
      · simp at hin
    · refine absurd hL (not_mem_katch ?_ (by simp) (by simp) (by simp))
      intro hc
      rcases List.mem_append.mp hc with hc | hc
      · exact not_mem_stem (by simp) (by simp) (by simp) (by simp) (by simp) (by simp) hc
      · exact absurd hc (renderLoop_not_mem rfl)
    · refine not_mem_katch ?_ (by simp) (by simp)
        (fun b hb heq => ?_) 
      · intro hc
        rcases List.mem_append.mp hc with hc | hc
        · exact not_mem_stem (by simp) (by simp) (by simp) (by simp) (by simp) (by simp) hc
        · exact absurd hc (renderLoop_not_mem rfl)
      · have hb' := interm_not_upload (hreg b hb)
        rw [Event.deleteFile.inj heq, hu] at hb'
        exact Bool.noConfusion hb'
  · rw [h6]
    have hreg := renderLoop_reg_interm env sc' 0 (regVids mu wu) [] (regVids_interm mu wu)
    refine ⟨fun L hL a hu => ?_, fun L hL => ?_, fun a hu => ?_⟩
    · rcases mem_katch.mp hL with hin | hin | hin | ⟨b, hb, hin⟩
      · exact absurd hin (by
          intro hc
          rcases List.mem_append.mp hc with hc | hc
          · rcases List.mem_append.mp hc with hc | hc
            · exact not_mem_stem (by simp) (by simp) (by simp) (by simp) (by simp) (by simp) hc
            · exact absurd hc (renderLoop_not_mem rfl)
          · simp at hc)
      · rw [Event.cleanupRun.inj hin]
        intro hmem
        have := interm_not_upload (hreg a hmem)
        rw [hu] at this
        exact Bool.noConfusion this
      · simp at hin
      · simp at hin
    · refine absurd hL (not_mem_katch ?_ (by simp) (by simp) (by simp))
      intro hc
      rcases List.mem_append.mp hc with hc | hc
      · rcases List.mem_append.mp hc with hc | hc
        · exact not_mem_stem (by simp) (by simp) (by simp) (by simp) (by simp) (by simp) hc
        · exact absurd hc (renderLoop_not_mem rfl)
      · simp at hc
    · refine not_mem_katch ?_ (by simp) (by simp) (fun b hb heq => ?_)
      · intro hc
        rcases List.mem_append.mp hc with hc | hc
        · rcases List.mem_append.mp hc with hc | hc
          · exact not_mem_stem (by simp) (by simp) (by simp) (by simp) (by simp) (by simp) hc
          · exact absurd hc (renderLoop_not_mem rfl)
        · simp at hc
      · have hb' := interm_not_upload (hreg b hb)
        rw [Event.deleteFile.inj heq, hu] at hb'
        exact Bool.noConfusion hb'
  · rw [h7]
    refine ⟨fun L hL a hu => ?_, fun L hL => ?_, fun a hu => ?_⟩
    · exfalso
      simp only [List.append_assoc, List.mem_append] at hL
      rcases hL with hc | hc | hc | hc | hc | hc
      · exact not_mem_stem (by simp) (by simp) (by simp) (by simp) (by simp) (by simp) hc
      · exact absurd hc (renderLoop_not_mem rfl)
      · simp at hc
      · simp at hc
      · rcases List.mem_map.mp hc with ⟨b, _, hc⟩
        simp at hc
      · simp at hc
    · intro a ha
      simp only [List.append_assoc, List.mem_append] at hL
      rcases hL with hc | hc | hc | hc | hc | hc
      · exact absurd hc
          (not_mem_stem (by simp) (by simp) (by simp) (by simp) (by simp) (by simp))
      · exact absurd hc (renderLoop_not_mem rfl)
      · simp at hc
      · simp at hc
      · exact absurd hc (by
          intro hc'
          rcases List.mem_map.mp hc' with ⟨b, _, hc''⟩
          simp at hc'')
      · simp only [List.mem_cons, List.not_mem_nil, or_false] at hc
        rw [Event.scheduleTimer.inj hc]
        exact List.mem_append_right _ ha
    · intro hc
      simp only [List.append_assoc, List.mem_append] at hc
      rcases hc with hc | hc | hc | hc | hc | hc
      · exact not_mem_stem (by simp) (by simp) (by simp) (by simp) (by simp) (by simp) hc
      · exact absurd hc (renderLoop_not_mem rfl)
      · simp at hc
      · simp only [List.mem_cons, List.not_mem_nil, or_false] at hc
        rcases hc with hc | hc | hc
        · exact absurd hc (by simp)
        · rw [show a = Artifact.concatManifest from Event.deleteFile.inj hc] at hu
          exact Bool.noConfusion hu
        · exact absurd hc (by simp)
      · rcases List.mem_map.mp hc with ⟨b, _, hc⟩
        simp at hc
      · simp at hc

/-- Witness for C6 (amended): in a successful run with an uploaded topic
file, the upload is part of the deferred-cleanup list. -/
theorem spec_c6_witness :
    (.scheduleTimer [.manVideo, .womanVideo, .audio 0, .clip 0, .audio 1, .clip 1,
        .uploadTopic] ∈ runHandler reqUp envOkA)
      ∧ Artifact.uploadTopic ∈ ([.manVideo, .womanVideo, .audio 0, .clip 0, .audio 1,
          .clip 1, .uploadTopic] : List Artifact) :=
  ⟨by decide,
    (spec_c6_upload_cleanup reqUp envOkA).2.1 _ (by decide) Artifact.uploadTopic (by decide)⟩

/-- Counterexample for C6 as stated: a failing run that received an uploaded
topic file never deletes it — the only cleanup pass runs on an empty list
and no `deleteFile` of the upload occurs. -/
theorem c6_counterexample :
    reqUp.topicFile = true
      ∧ runHandler reqUp envGemFail =
          [.composeTopic (theParts reqUp envGemFail), .geminiCall, .cleanupRun [], .respond500]
      ∧ .deleteFile .uploadTopic ∉ runHandler reqUp envGemFail := by
  exact ⟨rfl, by decide, by decide⟩

end AIVid

namespace AIVid

/-! ## C4 -/

theorem phase_register_upload {a : Artifact} (h : isUpload a = true) :
    phase (.register a) = none := by
  cases a <;> simp_all [isUpload, phase]

theorem phases_katch (t : List Event) (reg : List Artifact)
    (h : ∀ a ∈ reg, isInterm a = true) :
    (katch t reg).filterMap phase = t.filterMap phase := by
  unfold katch
  rw [List.filterMap_append, List.filterMap_append]
  have h1 : ([Event.cleanupRun reg, Event.respond500]).filterMap phase = [] := rfl
  have h2 : (reg.map Event.deleteFile).filterMap phase = [] := by
    rw [List.filterMap_map]
    refine List.filterMap_eq_nil_iff.mpr fun a ha => ?_
    exact phase_deleteFile_interm (h a ha)
  rw [h1, h2, List.append_nil, List.append_nil]

theorem loop_phases_forty (env : Env) (sc : List (Option ScriptEntry)) (i : Nat)
    (reg cls : List Artifact) :
    ∀ x ∈ ((renderLoop env sc i reg cls).ev).filterMap phase, x = 40 := by
  intro x hx
  rcases List.mem_filterMap.mp hx with ⟨e, he, hpe⟩
  rcases renderLoop_ev_shape env sc i reg cls e he with ⟨j, _, hj⟩
  rw [phase40_of_loopIdx hj] at hpe
  exact (Option.some.inj hpe).symm

theorem stem_phases_pairwise (req : Request) (env : Env) (mu wu : Bool) :
    ((stemEv req env mu wu).filterMap phase).Pairwise (· ≤ ·) := by
  cases mu <;> cases wu <;> simp [stemEv, vidEv, regVids, phase]

theorem stem_phases_le (req : Request) (env : Env) (mu wu : Bool) :
    ∀ x ∈ (stemEv req env mu wu).filterMap phase, x ≤ 30 := by
  cases mu <;> cases wu <;> simp [stemEv, vidEv, regVids, phase]

/-- C4 amended: the orchestrator's phases are monotone along every trace,
in the order: topic composition (10), then script generation (20), then
source resolution (30), then rendering (40), then concatenation (50).
In particular topic composition and script generation complete before
source resolution begins, and script generation and source resolution
complete before any rendering begins. -/
theorem spec_c4_phase_order (req : Request) (env : Env) :
    ((runHandler req env).filterMap phase).Pairwise (· ≤ ·) := by
  have hstemloop : ∀ (mu wu : Bool) (sc' : List (Option ScriptEntry)),
      ((stemEv req env mu wu).filterMap phase
        ++ ((renderLoop env sc' 0 (regVids mu wu) []).ev).filterMap phase).Pairwise (· ≤ ·) := by
    intro mu wu sc'
    exact pairwise_le_append 40 (stem_phases_pairwise req env mu wu)
      (pairwise_le_of_const (loop_phases_forty env sc' 0 (regVids mu wu) []))
      (fun x hx => le_trans (stem_phases_le req env mu wu x hx) (by norm_num))
      (fun y hy => by rw [loop_phases_forty env sc' 0 (regVids mu wu) [] y hy])
  have hstemloop_le : ∀ (mu wu : Bool) (sc' : List (Option ScriptEntry)),
      ∀ x ∈ (stemEv req env mu wu).filterMap phase
        ++ ((renderLoop env sc' 0 (regVids mu wu) []).ev).filterMap phase, x ≤ 50 := by
    intro mu wu sc' x hx
    rcases List.mem_append.mp hx with hx | hx
    · exact le_trans (stem_phases_le req env mu wu x hx) (by norm_num)
    · rw [loop_phases_forty env sc' 0 (regVids mu wu) [] x hx]
      norm_num
  rcases runHandler_cases req env with h1 | h2 | ⟨em, hem, h3⟩ | ⟨mu, ew, hew, h4⟩
    | ⟨mu, wu, sc', hg', hfail, h5⟩ | ⟨mu, wu, sc', hg', hok, hcl, hco, h6⟩
    | ⟨mu, wu, sc', hg', hok, hcl, hco, h7⟩
  · rw [h1]
    decide
  · rw [h2, phases_katch _ _ (by simp)]
    have hv : ([Event.composeTopic (theParts req env),
        Event.geminiCall]).filterMap phase = [10, 20] := rfl
    rw [hv]
    decide
  · rw [h3, phases_katch _ _ (by simp)]
    rcases hem with rfl | rfl
    · have hv : (([Event.composeTopic (theParts req env), Event.geminiCall]
          ++ ([] : List Event)).filterMap phase) = [10, 20] := rfl
      rw [hv]
      decide
    · have hv : (([Event.composeTopic (theParts req env), Event.geminiCall]
          ++ [Event.create Artifact.manVideo]).filterMap phase) = [10, 20, 30] := rfl
      rw [hv]
      decide
  · rw [h4, phases_katch _ _ (by simp)]
    rcases hew with rfl | rfl <;> cases mu
    · have hv : (([Event.composeTopic (theParts req env), Event.geminiCall]
          ++ vidEv false .manVideo ++ ([] : List Event)).filterMap phase) = [10, 20, 30] := rfl
      rw [hv]
      decide
    · have hv : (([Event.composeTopic (theParts req env), Event.geminiCall]
          ++ vidEv true .manVideo ++ ([] : List Event)).filterMap phase) = [10, 20] := rfl
      rw [hv]
      decide
    · have hv : (([Event.composeTopic (theParts req env), Event.geminiCall]
          ++ vidEv false .manVideo
          ++ [Event.create Artifact.womanVideo]).filterMap phase) = [10, 20, 30, 30] := rfl
      rw [hv]
      decide
    · have hv : (([Event.composeTopic (theParts req env), Event.geminiCall]
          ++ vidEv true .manVideo
          ++ [Event.create Artifact.womanVideo]).filterMap phase) = [10, 20, 30] := rfl
      rw [hv]
      decide
  · rw [h5, phases_katch _ _
      (renderLoop_reg_interm env sc' 0 (regVids mu wu) [] (regVids_interm mu wu))]
    rw [List.filterMap_append]
    exact hstemloop mu wu sc'
  · rw [h6, phases_katch _ _
      (renderLoop_reg_interm env sc' 0 (regVids mu wu) [] (regVids_interm mu wu))]
    rw [List.filterMap_append, List.filterMap_append]
    have hcc : ([Event.create Artifact.concatManifest,
        Event.concatCall (renderLoop env sc' 0 (regVids mu wu) []).clips]).filterMap phase
          = [50, 50] := rfl
    rw [hcc]
    exact pairwise_le_append 50 (hstemloop mu wu sc') (by decide)
      (hstemloop_le mu wu sc') (by decide)
  · rw [h7]
    simp only [List.filterMap_append]
    have hcc : ([Event.create Artifact.concatManifest,
        Event.concatCall (renderLoop env sc' 0 (regVids mu wu) []).clips]).filterMap phase
          = [50, 50] := rfl
    have hfin : ([Event.create Artifact.finalOutput, Event.deleteFile Artifact.concatManifest,
        Event.respond200]).filterMap phase = [50, 50] := rfl
    have hups : ((uploadArts req).map Event.register).filterMap phase = [] := by
      rw [List.filterMap_map]
      exact List.filterMap_eq_nil_iff.mpr fun a ha =>
        phase_register_upload (uploadArts_upload req a ha)
    have hsched : ([Event.scheduleTimer ((renderLoop env sc' 0 (regVids mu wu) []).reg
        ++ uploadArts req)]).filterMap phase = [] := rfl
    rw [hcc, hfin, hups, hsched, List.append_nil, List.append_nil]
    refine pairwise_le_append 50 ?_ (by decide) ?_ (by decide)
    · exact pairwise_le_append 50 (hstemloop mu wu sc') (by decide)
        (hstemloop_le mu wu sc') (by decide)
    · intro x hx
      rcases List.mem_append.mp hx with hx | hx
      · exact hstemloop_le mu wu sc' x hx
      · simp only [List.mem_cons, List.not_mem_nil, or_false] at hx
        rcases hx with rfl | rfl <;> norm_num

/-- Counterexample for C4 as stated: script generation begins (the Gemini
call happens) before any source-resolution download — resolution does not
complete before script generation, it follows it. -/
theorem c4_counterexample :
    ∃ l1 l2, runHandler reqA envWomanDlFail = l1 ++ Event.geminiCall :: l2
      ∧ Event.create .manVideo ∈ l2 ∧ Event.create .womanVideo ∈ l2
      ∧ (∀ e ∈ l1, e ≠ Event.create .manVideo ∧ e ≠ Event.create .womanVideo) := by
  refine ⟨[.composeTopic (theParts reqA envWomanDlFail)],
    [.create .manVideo, .create .womanVideo, .cleanupRun [], .respond500],
    by decide, by decide, by decide, by decide⟩

end AIVid
